import Mathlib

/-!
# A verification development for `filters.go`

The Go package turns a JSON filter expression, a search term, a column list
and a sort token into parameterised predicate text, and computes a pagination
summary.  This file embeds the package function by function and proves
properties of the embedding.

Conventions of the embedding

* A Go `string` is a Lean `String` (valid UTF-8 text); the `strings` helpers
  the package calls are written out on character lists.
* A Go `interface{}` value is a `GoVal`.
* A Go `int` is a Lean `Int`; where the 64-bit width matters the wrap is
  explicit (`wrapInt64`).
* A Go `float64` is an `F64`: a rational for a finite value, or one of the
  three special values.  Rounding is `rne`, round-to-nearest, ties-to-even, to
  53 significant bits.
* A function that can stop with a run-time panic returns an `Option`, `none`
  being the panic.
* Library functions that are not part of the package (`strings.ToUpper`,
  `strcase.ToCamel`, `json.Unmarshal`, ...) are the fields of `GoLib`; every
  general theorem holds for every `GoLib`.
-/

namespace Filters

/-! ## Floating point -/

/-- A `float64`: a finite value carried as a rational, the two infinities, or
not-a-number.  Negative zero is identified with zero. -/
inductive F64 where
  | fin (q : ℚ)
  | posInf
  | negInf
  | nan

/-- Nearest integer to `s`, a tie going to the even neighbour. -/
def roundHalfEven (s : ℚ) : ℤ :=
  if s - ⌊s⌋ < 1 / 2 then ⌊s⌋
  else if 1 / 2 < s - ⌊s⌋ then ⌊s⌋ + 1
  else if ⌊s⌋ % 2 = 0 then ⌊s⌋
  else ⌊s⌋ + 1

/-- Rounding of a real result to `float64` (53 significant bits, nearest,
ties to even), for results inside the normal exponent range.  With `e` the
exponent of the last kept bit, `q / 2 ^ e` lies in `[2 ^ 52, 2 ^ 53)` in
absolute value and is rounded to an integer. -/
def rne (q : ℚ) : ℚ :=
  if q = 0 then 0
  else (roundHalfEven (q / (2 : ℚ) ^ (Int.log 2 |q| - 52)) : ℚ) * (2 : ℚ) ^ (Int.log 2 |q| - 52)

/-- The conversion `float64(n)` of a Go `int`. -/
def F64.ofInt (n : Int) : F64 := .fin (rne n)

/-- The quotient `x / y` of two `float64` values.  A zero divisor is the
positive zero (the only zero a converted `int` can be). -/
def F64.div : F64 → F64 → F64
  | .nan, _ => .nan
  | _, .nan => .nan
  | .fin a, .fin b =>
    if b = 0 then
      if a = 0 then .nan else if 0 < a then .posInf else .negInf
    else .fin (rne (a / b))
  | .fin _, .posInf => .fin 0
  | .fin _, .negInf => .fin 0
  | .posInf, .fin b => if 0 ≤ b then .posInf else .negInf
  | .negInf, .fin b => if 0 ≤ b then .negInf else .posInf
  | .posInf, .posInf => .nan
  | .posInf, .negInf => .nan
  | .negInf, .posInf => .nan
  | .negInf, .negInf => .nan

/-- Go `math.Ceil`. -/
def F64.ceil : F64 → F64
  | .fin q => .fin (⌈q⌉ : ℤ)
  | x => x

/-- Go `x == math.Inf(0)`: equality with positive infinity. -/
def F64.isPosInf : F64 → Bool
  | .posInf => true
  | _ => false

/-- Go `math.IsNaN`. -/
def F64.isNaN : F64 → Bool
  | .nan => true
  | _ => false

/-- Reduction of an integer to the range of a 64-bit Go `int`. -/
def wrapInt64 (n : Int) : Int := (n + 2 ^ 63) % 2 ^ 64 - 2 ^ 63

/-- The values a 64-bit Go `int` can hold. -/
def InInt64 (n : Int) : Prop := -(2 : Int) ^ 63 ≤ n ∧ n < 2 ^ 63

/-! ## Dynamic values -/

/-- A value held in a Go `interface{}`, restricted to the dynamic types the
package inspects: `nil`, `string`, `bool`, `int8`, `int64`, `float64`,
`[]interface{}` and `map[string]interface{}`. -/
inductive GoVal where
  | nil
  | str (s : String)
  | bool (b : Bool)
  | int8 (n : Int)
  | int64 (n : Int)
  | float64 (x : F64)
  | arr (l : List GoVal)
  | map (m : List (String × GoVal))

/-- The test `v == nil` on an interface value. -/
def GoVal.isNil : GoVal → Bool
  | .nil => true
  | _ => false

/-- The functions the package imports from outside its own source. -/
structure GoLib where
  /-- Go `strings.ToUpper`. -/
  ToUpper : String → String
  /-- Go `strings.ToLower`. -/
  ToLower : String → String
  /-- The `strcase.ToCamel` of the imported strcase package. -/
  ToCamel : String → String
  /-- The text `fmt.Sprintf` gives a `float64` under the verb v. -/
  FormatFloat : F64 → String
  /-- Go `json.Unmarshal` into an empty interface; `none` is a decoding error. -/
  Unmarshal : String → Option GoVal
  /-- Go `url.QueryUnescape`, its error result dropped. -/
  QueryUnescape : String → String
  /-- The result of the conversion `int(x)` for a `float64` outside the range
  of `int` (or infinite, or not-a-number), which Go leaves to the platform. -/
  ConvOverflow : F64 → Int

/-! ## String helpers -/

/-- Whether the character list `s` begins with `pat`. -/
def startsWith : List Char → List Char → Bool
  | [], _ => true
  | _ :: _, [] => false
  | p :: ps, c :: cs => p == c && startsWith ps cs

/-- Left-to-right replacement of the non-overlapping occurrences of a
non-empty `old` by `new`; `skip` counts the characters of a matched
occurrence still to be dropped. -/
def replaceFrom (old new : List Char) : Nat → List Char → List Char
  | _, [] => []
  | skip + 1, _ :: cs => replaceFrom old new skip cs
  | 0, c :: cs =>
    if startsWith old (c :: cs) then new ++ replaceFrom old new (old.length - 1) cs
    else c :: replaceFrom old new 0 cs

/-- Go `strings.ReplaceAll(s, old, new)`. -/
def ReplaceAll (s old new : String) : String :=
  if old.data = [] then String.mk (new.data ++ s.data.flatMap (fun c => c :: new.data))
  else String.mk (replaceFrom old.data new.data 0 s.data)

/-- Pieces of a character list between occurrences of `sep`. -/
def splitOnChar (sep : Char) : List Char → List (List Char)
  | [] => [[]]
  | c :: cs =>
    if c = sep then [] :: splitOnChar sep cs
    else
      match splitOnChar sep cs with
      | [] => [[c]]
      | h :: t => (c :: h) :: t

/-- Go `strings.Split(s, sep)` for a one-character separator. -/
def Split (s : String) (sep : Char) : List String :=
  (splitOnChar sep s.data).map String.mk

/-- Go `strings.Join(l, sep)`. -/
def Join (l : List String) (sep : String) : String :=
  match l with
  | [] => ""
  | [a] => a
  | a :: b :: rest => a ++ sep ++ Join (b :: rest) sep

/-- Position of the first occurrence of `pat` in `s`, counted from `i`. -/
def indexFrom (pat : List Char) : Nat → List Char → Option Nat
  | i, [] => if pat = [] then some i else none
  | i, c :: cs => if startsWith pat (c :: cs) then some i else indexFrom pat (i + 1) cs

/-- Go `strings.Index(s, pat)`, `none` standing for `-1`. -/
def Index (s pat : String) : Option Nat := indexFrom pat.data 0 s.data

/-- Lexicographic order on character lists, the order of Go strings. -/
def charsLe : List Char → List Char → Bool
  | [], _ => true
  | _ :: _, [] => false
  | a :: as, b :: bs =>
    if a.toNat < b.toNat then true
    else if b.toNat < a.toNat then false
    else charsLe as bs

/-- Insertion of a rendered map entry, keys kept in increasing order. -/
def insertKey (k v : String) : List (String × String) → List (String × String)
  | [] => [(k, v)]
  | (k2, v2) :: rest =>
    if charsLe k.data k2.data then (k, v) :: (k2, v2) :: rest
    else (k2, v2) :: insertKey k v rest

mutual
/-- The text `fmt.Sprintf` gives a value under the verb v. -/
def fmtV (L : GoLib) : GoVal → String
  | .nil => "<nil>"
  | .str s => s
  | .bool b => if b then "true" else "false"
  | .int8 n => toString n
  | .int64 n => toString n
  | .float64 x => L.FormatFloat x
  | .arr l => "[" ++ Join (fmtVs L l) " " ++ "]"
  | .map m => "map[" ++ Join ((fmtKVs L m).map (fun kv => kv.1 ++ ":" ++ kv.2)) " " ++ "]"
/-- Rendering of the elements of a slice. -/
def fmtVs (L : GoLib) : List GoVal → List String
  | [] => []
  | v :: vs => fmtV L v :: fmtVs L vs
/-- Rendering of the entries of a map, sorted by key. -/
def fmtKVs (L : GoLib) : List (String × GoVal) → List (String × String)
  | [] => []
  | (k, v) :: m => insertKey k (fmtV L v) (fmtKVs L m)
end

/-! ## Pagination -/

/-- The item payload handed to `GeneratePagination`, as far as the function
looks at it: `len` is the result of `reflect.ValueOf(Items).Len()`, `none`
when the payload has no length (a nil interface, a number, a struct, ...) and
the call panics. -/
structure Payload where
  len : Option Nat

/-- The Go struct `PageModel`. -/
structure PageModel where
  Items : Payload
  Page : Int
  PrevPage : Int
  NextPage : Int
  PostsPerPage : Int
  CurrentParam : String
  First : Bool
  Last : Bool
  HasPages : Bool
  Paginates : List Int
  TotalPages : F64
  TotalVisible : Int
  TotalRecordsFiltered : Int
  Additional : GoVal
  Summary : GoVal

/-- Go `BeetweenString`.  Positions count characters. -/
def BeetweenString (value a b : String) : String :=
  match Index value a with
  | none => ""
  | some posFirst =>
    match Index value b with
    | none => ""
    | some posLast =>
      let posFirstAdjusted := posFirst + a.data.length
      if posFirstAdjusted ≥ posLast then ""
      else String.mk ((value.data.drop posFirstAdjusted).take (posLast - posFirstAdjusted))

/-- Value of a list of decimal digits, `none` when a character is not a digit. -/
def digitsValue : Nat → List Char → Option Nat
  | acc, [] => some acc
  | acc, c :: cs =>
    if 48 ≤ c.toNat ∧ c.toNat ≤ 57 then digitsValue (acc * 10 + (c.toNat - 48)) cs
    else none

/-- Go `strconv.Atoi`, its error result dropped: `0` on a syntax error, the
nearest bound of `int` on a range error. -/
def Atoi (s : String) : Int :=
  match s.data with
  | [] => 0
  | '-' :: ds =>
    if ds = [] then 0
    else
      match digitsValue 0 ds with
      | none => 0
      | some n => max (-(n : Int)) (-(2 : Int) ^ 63)
  | '+' :: ds =>
    if ds = [] then 0
    else
      match digitsValue 0 ds with
      | none => 0
      | some n => min (n : Int) (2 ^ 63 - 1)
  | ds =>
    match digitsValue 0 ds with
    | none => 0
    | some n => min (n : Int) (2 ^ 63 - 1)

/-- Go `NormalizeParam`. -/
def NormalizeParam (Param : String) : String :=
  let v := BeetweenString Param "page=" "&"
  let value := ReplaceAll Param ("page=" ++ v) ""
  let value := if Atoi value ≠ 0 then "" else value
  if v = "" then "&" ++ value else value

/-- The loop of `Paginates` from the counter value `i` on, `paginates` holding
the numbers appended so far; `fuel` bounds the number of turns. -/
def paginatesLoop (totalPages : Int) : Nat → Int → List Int → List Int
  | 0, _, paginates => paginates
  | fuel + 1, i, paginates =>
    if i < totalPages then paginatesLoop totalPages fuel (i + 1) (paginates ++ [i + 1])
    else paginates

/-- Go `Paginates`.  The loop makes `totalPages` turns, none when `totalPages`
is not positive, so that many turns of fuel let it run to its end. -/
def Paginates (totalPages : Int) : List Int :=
  paginatesLoop totalPages totalPages.toNat 0 []

/-- Go `HasPages`. -/
def HasPages (totalPages : Int) : Bool :=
  if totalPages > 1 then true else false

/-- The conversion `int(x)` of a `float64`: truncation toward zero inside the
range of `int`, the platform's choice outside it. -/
def F64.toInt (L : GoLib) (x : F64) : Int :=
  match x with
  | .fin q =>
    let z : Int := if 0 ≤ q then ⌊q⌋ else ⌈q⌉
    if -(2 : Int) ^ 63 ≤ z ∧ z < 2 ^ 63 then z else L.ConvOverflow x
  | _ => L.ConvOverflow x

/-- The page count of `GeneratePagination`: the rounded-up quotient, an
undefined result (positive infinity or not-a-number) replaced by zero. -/
def totalPagesOf (pageSize TotalVisible : Int) : F64 :=
  let totalPages := F64.ceil (F64.div (F64.ofInt TotalVisible) (F64.ofInt pageSize))
  if totalPages.isPosInf || totalPages.isNaN then .fin 0 else totalPages

/-- Go `GeneratePagination`; `none` is the panic of `reflect` on a payload
without a length. -/
def GeneratePagination (L : GoLib) (pageNumber pageSize TotalVisible : Int)
    (CurrentParam : String) (Items : Payload) : Option PageModel :=
  let totalPages := totalPagesOf pageSize TotalVisible
  let DecodedParam := L.QueryUnescape CurrentParam
  let Parameter := NormalizeParam DecodedParam
  match Items.len with
  | none => none
  | some n =>
    some {
      TotalPages := totalPages
      TotalVisible := TotalVisible
      TotalRecordsFiltered := n
      Items := Items
      Page := pageNumber
      PrevPage := wrapInt64 (pageNumber - 1)
      NextPage := wrapInt64 (pageNumber + 1)
      PostsPerPage := pageSize
      CurrentParam := Parameter
      Paginates := Paginates (F64.toInt L totalPages)
      HasPages := HasPages (F64.toInt L totalPages)
      First := pageNumber == 1
      Last := decide (wrapInt64 (pageNumber * pageSize) ≥ TotalVisible)
      Additional := .nil
      Summary := .nil }

/-! ## Filter expressions -/

/-- The Go struct `FilterItem`. -/
structure FilterItem where
  Field : String := ""
  Operator : String := ""
  Value : GoVal := .nil
  ValueType : String := ""

/-- The Go struct `QueryFilter`; `Typ` is its field `Type`. -/
structure QueryFilter where
  Item : FilterItem
  Typ : String

/-- Go `NormalizeFieldName`. -/
def NormalizeFieldName (L : GoLib) (field : String) : String :=
  match Split field ',' with
  | [] => field
  | [_] => field
  | first :: rest => Join (L.ToCamel first :: rest) "__"

/-- Go `SetFilterValue`. -/
def SetFilterValue (item : FilterItem) (a : GoVal) : FilterItem :=
  match a with
  | .str s => { item with Value := .str s, ValueType := "string" }
  | .bool b => { item with Value := .bool b, ValueType := "bool" }
  | .int8 n => { item with Value := .int8 n, ValueType := "int8" }
  | .int64 n => { item with Value := .int64 n, ValueType := "int64" }
  | .float64 x => { item with Value := .float64 x, ValueType := "float64" }
  | .arr l => { item with Value := .arr l, ValueType := "array" }
  | .nil => item
  | .map _ => item

/-- One turn of the inner loop of `CreateFilter` over a nested list of length
`n`, at position `i` with element `a`; `none` is the panic of a failed type
assertion. -/
def tripleStep (n i : Nat) (a : GoVal) (filter : QueryFilter) : Option QueryFilter :=
  if n = 1 then
    match a with
    | .str s => some { Item := { filter.Item with Operator := s }, Typ := "operator" }
    | _ => none
  else if i = 0 then
    match a with
    | .str s => some { filter with Item := { filter.Item with Field := s } }
    | _ => none
  else if i = 1 then
    if n = 2 then
      some { filter with Item := SetFilterValue { filter.Item with Operator := "=" } a }
    else
      match a with
      | .str s => some { filter with Item := { filter.Item with Operator := s } }
      | _ => none
  else if i = 2 then
    some { filter with Item := SetFilterValue filter.Item a }
  else some filter

/-- The inner loop of `CreateFilter`, from position `i` on. -/
def tripleLoop (n : Nat) : Nat → List GoVal → QueryFilter → Option QueryFilter
  | _, [], filter => some filter
  | i, a :: rest, filter =>
    match tripleStep n i a filter with
    | none => none
    | some filter2 => tripleLoop n (i + 1) rest filter2

/-- The variables the outer loop of `CreateFilter` updates. -/
structure ParseState where
  filters : List QueryFilter
  hasSingle : Bool
  singleFilter : QueryFilter

/-- The single-triple branch of the outer loop, at top-level position `x` of a
list of length `len`. -/
def singleStep (L : GoLib) (len x : Nat) (v : GoVal) (single : QueryFilter) : QueryFilter :=
  if x = 0 then
    match v with
    | .str fieldName =>
      { single with Item := { single.Item with Field := "\"" ++ NormalizeFieldName L fieldName ++ "\"" } }
    | _ => single
  else if x = 1 then
    if len = 2 then
      { single with Item := SetFilterValue { single.Item with Operator := "=" } v }
    else
      match v with
      | .str opName => { single with Item := { single.Item with Operator := L.ToUpper opName } }
      | _ => single
  else if x = 2 then
    { single with Item := SetFilterValue single.Item v }
  else single

/-- One turn of the outer loop of `CreateFilter`. -/
def outerStep (L : GoLib) (len x : Nat) (v : GoVal) (st : ParseState) : Option ParseState :=
  match v, st.hasSingle with
  | .arr item, false =>
    match tripleLoop item.length 0 item { Item := {}, Typ := "multiple" } with
    | none => none
    | some filter =>
      some { st with filters := st.filters ++ [{ filter with Item := { filter.Item with
        Field := "\"" ++ NormalizeFieldName L filter.Item.Field ++ "\""
        Operator := L.ToUpper filter.Item.Operator } }] }
  | _, _ =>
    some { st with hasSingle := true, singleFilter := singleStep L len x v st.singleFilter }

/-- The outer loop of `CreateFilter`, from position `x` on. -/
def outerLoop (L : GoLib) (len : Nat) : Nat → List GoVal → ParseState → Option ParseState
  | _, [], st => some st
  | x, v :: rest, st =>
    match outerStep L len x v st with
    | none => none
    | some st2 => outerLoop L len (x + 1) rest st2

/-- The part of `CreateFilter` after a successful decoding. -/
def filtersOfValue (L : GoLib) (output : GoVal) : Option (List QueryFilter) :=
  match output with
  | .arr iface =>
    match outerLoop L iface.length 0 iface
        { filters := [], hasSingle := false, singleFilter := { Item := {}, Typ := "single" } } with
    | none => none
    | some st => some (if st.hasSingle then st.filters ++ [st.singleFilter] else st.filters)
  | _ => some []

/-- Go `CreateFilter`; `none` is a run-time panic. -/
def CreateFilter (L : GoLib) (jsonParams : String) : Option (List QueryFilter) :=
  match L.Unmarshal jsonParams with
  | none => some []
  | some output => filtersOfValue L output

/-- The text bound by the `LIKE` branch before the spaces are replaced; `none`
is the panic of a failed type assertion. -/
def likeValue (L : GoLib) (item : FilterItem) : Option String :=
  if item.ValueType = "string" then
    match item.Value with
    | .str s => some ("%" ++ s ++ "%")
    | _ => none
  else if item.ValueType = "int64" then
    match item.Value with
    | .int64 n => some ("%" ++ toString n ++ "%")
    | _ => none
  else if item.ValueType = "int8" then
    match item.Value with
    | .int8 n => some ("%" ++ toString n ++ "%")
    | _ => none
  else if item.ValueType = "float64" then
    match item.Value with
    | .float64 x => some ("%" ++ L.FormatFloat x ++ "%")
    | _ => none
  else some ""

/-- The element the `IN` and `BETWEEN` loops append for the list entry `val`:
after `v, o := val.(string)` a text entry gives its lower-cased text, and any
other entry gives the formatting of `v`, which is then the empty string. -/
def listEntry (L : GoLib) (val : GoVal) : GoVal :=
  match val with
  | .str v => .str (L.ToLower v)
  | _ => .str (fmtV L (.str ""))

/-- Go `CreateWhereCause`, the two slices passed in and returned; `none` is a
run-time panic. -/
def CreateWhereCause (L : GoLib) (filter : QueryFilter) (queryFilters : List String)
    (whereParams : List GoVal) : Option (List String × List GoVal) :=
  if (filter.Item.Operator = "IS" ∨ filter.Item.Operator = "IS NOT") ∧ filter.Item.Value.isNil then
    some (queryFilters ++ ["(" ++ filter.Item.Field ++ " " ++ filter.Item.Operator ++ " NULL)"],
      whereParams)
  else if filter.Item.Operator = "LIKE" ∨ filter.Item.Operator = "NOT LIKE" then
    match likeValue L filter.Item with
    | none => none
    | some value =>
      if value ≠ "" then
        some (queryFilters ++ [filter.Item.Field ++ " " ++ filter.Item.Operator ++ " ?"],
          whereParams ++ [.str (ReplaceAll value " " "%")])
      else
        some (queryFilters ++ [filter.Item.Field ++ " " ++ filter.Item.Operator ++ " ?"],
          whereParams)
  else if filter.Item.Operator = "IN" ∨ filter.Item.Operator = "NOT IN" then
    if filter.Item.ValueType = "array" then
      match filter.Item.Value with
      | .arr value =>
        some (queryFilters ++ [filter.Item.Field ++ " " ++ filter.Item.Operator ++ " ?"],
          whereParams ++ [.arr (value.map (listEntry L))])
      | _ =>
        some (queryFilters ++ [filter.Item.Field ++ " " ++ filter.Item.Operator ++ " ?"],
          whereParams)
    else
      some (queryFilters ++ [filter.Item.Field ++ " " ++ filter.Item.Operator ++ " ?"],
        whereParams)
  else if filter.Item.Operator = "BETWEEN" then
    if filter.Item.ValueType = "array" then
      match filter.Item.Value with
      | .arr value =>
        match value.map (listEntry L) with
        | [v0, v1] =>
          some (queryFilters ++ [filter.Item.Field ++ " " ++ filter.Item.Operator ++ " ? AND ?"],
            whereParams ++ [v0, v1])
        | _ =>
          some (queryFilters ++ [filter.Item.Field ++ " " ++ filter.Item.Operator ++ " ? AND ?"],
            whereParams)
      | _ =>
        some (queryFilters ++ [filter.Item.Field ++ " " ++ filter.Item.Operator ++ " ? AND ?"],
          whereParams)
    else
      some (queryFilters ++ [filter.Item.Field ++ " " ++ filter.Item.Operator ++ " ? AND ?"],
        whereParams)
  else
    some (queryFilters ++ [filter.Item.Field ++ " " ++ filter.Item.Operator ++ " ?"],
      whereParams ++ [.str (fmtV L filter.Item.Value)])

/-- Go `StringToJson`: the decoded value, `nil` after a decoding error. -/
def StringToJson (L : GoLib) (value : String) : GoVal :=
  match L.Unmarshal value with
  | none => .nil
  | some output => output

/-- Go `CountLengthIface`, on a value that is not `nil`. -/
def CountLengthIface (data : GoVal) : Nat :=
  match data with
  | .arr s => s.length
  | _ => 0

/-- The search loop of `CreateCustomFilters` over the column list; `none` is
the panic on a column that is not a string. -/
def searchLoop (pageSearch : String) :
    List GoVal → List String → List GoVal → Option (List String × List GoVal)
  | [], querySearch, whereSearch => some (querySearch, whereSearch)
  | .str value :: rest, querySearch, whereSearch =>
    searchLoop pageSearch rest (querySearch ++ [value ++ " LIKE ?"])
      (whereSearch ++ [.str ("%" ++ pageSearch ++ "%")])
  | _ :: _, _, _ => none

/-- The loop of `CreateCustomFilters` over two or more parsed filters; `prev`
is the filter before the current one, `none` at the first position. -/
def filterLoop (L : GoLib) : Option QueryFilter → List QueryFilter → List String → List GoVal →
    Option (List String × List GoVal)
  | _, [], queryFilters, whereFilters => some (queryFilters, whereFilters)
  | prev, filter :: rest, queryFilters, whereFilters =>
    if filter.Typ = "operator" then
      filterLoop L (some filter) rest (queryFilters ++ [filter.Item.Operator]) whereFilters
    else if filter.Typ = "multiple" then
      let queryFilters2 :=
        match prev with
        | some p => if p.Typ ≠ "operator" then queryFilters ++ [" OR "] else queryFilters
        | none => queryFilters
      match CreateWhereCause L filter queryFilters2 whereFilters with
      | none => none
      | some (qf, wf) => filterLoop L (some filter) rest qf wf
    else filterLoop L (some filter) rest queryFilters whereFilters

/-- The five results of `CreateCustomFilters`. -/
structure CustomFilters where
  ResultFilters : String
  whereFilters : List GoVal
  ResultSearch : String
  whereSearch : List GoVal
  orderBy : String

/-- The search part of `CreateCustomFilters`: search text and parameters. -/
def searchPart (L : GoLib) (pageSearch columnFilter : String) : Option (String × List GoVal) :=
  match StringToJson L columnFilter with
  | .nil => some ("", [])
  | columnFilters =>
    if CountLengthIface columnFilters > 0 then
      if "" ≠ pageSearch then
        match columnFilters with
        | .arr s =>
          match searchLoop pageSearch s [] [] with
          | none => none
          | some (querySearch, whereSearch) =>
            some (if querySearch.length > 0 then Join querySearch " OR " else "", whereSearch)
        | _ => some ("", [])
      else some ("", [])
    else some ("", [])

/-- The filter part of `CreateCustomFilters`: predicate text before the
quoting characters are removed, and parameters. -/
def filterPart (L : GoLib) (pageFilters : String) : Option (String × List GoVal) :=
  if "" ≠ pageFilters then
    match CreateFilter L pageFilters with
    | none => none
    | some filters =>
      let compiled : Option (List String × List GoVal) :=
        match filters with
        | [] => some ([], [])
        | [f] =>
          if f.Typ = "single" then CreateWhereCause L f [] []
          else filterLoop L none [f] [] []
        | _ => filterLoop L none filters [] []
      match compiled with
      | none => none
      | some (queryFilters, whereFilters) =>
        some (if queryFilters.length > 0 then Join queryFilters " " else "", whereFilters)
  else some ("", [])

/-- The sort part of `CreateCustomFilters`. -/
def sortPart (L : GoLib) (pageSort : String) : String :=
  if "" ≠ pageSort then
    match pageSort.data with
    | '-' :: rest => NormalizeFieldName L (String.mk rest) ++ " " ++ "desc"
    | _ => NormalizeFieldName L pageSort ++ " " ++ "asc"
  else "id desc"

/-- Go `CreateCustomFilters`; `none` is a run-time panic. -/
def CreateCustomFilters (L : GoLib) (pageFilters pageSearch columnFilter pageSort : String) :
    Option CustomFilters :=
  match searchPart L pageSearch columnFilter with
  | none => none
  | some (ResultSearch, whereSearch) =>
    match filterPart L pageFilters with
    | none => none
    | some (ResultFilters, whereFilters) =>
      some {
        ResultFilters := ReplaceAll ResultFilters "\"" ""
        whereFilters := whereFilters
        ResultSearch := ResultSearch
        whereSearch := whereSearch
        orderBy := sortPart L pageSort }

/-! ## Vocabulary of the statements -/

/-- The operators `CreateWhereCause` treats in a branch of their own. -/
def specialOperators : List String :=
  ["IS", "IS NOT", "LIKE", "NOT LIKE", "IN", "NOT IN", "BETWEEN"]

/-- The values that are neither a list nor a map: what a JSON scalar decodes
to, and the two integer types. -/
def GoVal.isScalar : GoVal → Bool
  | .arr _ => false
  | .map _ => false
  | _ => true

/-- Whether the value is a map, the decoding of a JSON object. -/
def GoVal.isMap : GoVal → Bool
  | .map _ => true
  | _ => false

/-- The tag `SetFilterValue` records for a value of each dynamic type; a nil
value and a map have none. -/
def GoVal.tag : GoVal → String
  | .str _ => "string"
  | .bool _ => "bool"
  | .int8 _ => "int8"
  | .int64 _ => "int64"
  | .float64 _ => "float64"
  | .arr _ => "array"
  | .nil => ""
  | .map _ => ""

/-- The item carries the tag of its value, as every item built by
`CreateFilter` does. -/
def FilterItem.Tagged (item : FilterItem) : Prop :=
  item.ValueType = item.Value.tag

/-- What the outer loop of `CreateFilter` keeps true: every filter collected
so far, and the single filter under construction, carries the tag of its
value. -/
def ParseState.AllTagged (st : ParseState) : Prop :=
  (∀ f ∈ st.filters, f.Item.Tagged) ∧ st.singleFilter.Item.Tagged

/-- An entry of a filter expression in multiple-triple mode: a triple of a
field, an operator and a value, or a connective standing alone. -/
inductive Entry where
  | triple (f op : String) (v : GoVal)
  | connective (c : String)

/-- The decoded JSON of an entry: a nested list of three elements, or of one. -/
def Entry.toJson : Entry → GoVal
  | .triple f op v => .arr [.str f, .str op, v]
  | .connective c => .arr [.str c]

/-- The filter `CreateFilter` builds from an entry. -/
def Entry.filter (L : GoLib) : Entry → QueryFilter
  | .triple f op v =>
    { Item := { SetFilterValue {} v with
        Field := "\"" ++ NormalizeFieldName L f ++ "\"", Operator := L.ToUpper op },
      Typ := "multiple" }
  | .connective c =>
    { Item := { Field := "\"" ++ NormalizeFieldName L "" ++ "\"", Operator := L.ToUpper c },
      Typ := "operator" }

/-- The fragments and the parameters `CreateWhereCause` gives for a filter on
its own, from empty lists. -/
def compiled (L : GoLib) (f : QueryFilter) : List String × List GoVal :=
  (CreateWhereCause L f [] []).getD ([], [])

/-- The elements of the predicate a list of entries is to produce, in the
words of the specification: every entry in input order, a connective as its
upper-cased text and a triple as its compiled fragment, with an `OR` element
before a triple exactly when the entry before it is a triple too.
`afterTriple` tells whether the entry before the list is a triple. -/
def emitted (L : GoLib) : Bool → List Entry → List String
  | _, [] => []
  | _, .connective c :: rest => L.ToUpper c :: emitted L false rest
  | afterTriple, .triple f op v :: rest =>
    (if afterTriple then [" OR "] else []) ++ (compiled L (Entry.filter L (.triple f op v))).1 ++
      emitted L true rest

/-- The parameters a list of entries is to bind: those of its triples, in
input order. -/
def bound (L : GoLib) : List Entry → List GoVal
  | [] => []
  | .connective _ :: rest => bound L rest
  | .triple f op v :: rest => (compiled L (Entry.filter L (.triple f op v))).2 ++ bound L rest

/-- Whether the filter before the current one, if any, is not a connective. -/
def afterTripleOf : Option QueryFilter → Bool
  | some p => decide (p.Typ ≠ "operator")
  | none => false

/-! ## A sample library

A concrete `GoLib` on which the examples are run.  It agrees with the Go
functions on the inputs the examples use: ASCII letters for the case
conversions, integral numbers of at most six digits for the float formatting,
and JSON texts built from lists, objects, strings without a unicode escape,
integer literals and the three keywords for the decoder (any other text is
reported as a decoding error). -/

/-- Upper-casing of the ASCII letters of a text. -/
def asciiUpper (s : String) : String := String.mk (s.data.map Char.toUpper)

/-- Lower-casing of the ASCII letters of a text. -/
def asciiLower (s : String) : String := String.mk (s.data.map Char.toLower)

/-- The character loop of `strcase.ToCamel` (v0.3.0, no acronym configured),
which keeps letters and digits only and capitalises at the start and after a
digit or one of the separators. -/
def camelLoop : Bool → Bool → Bool → List Char → List Char
  | _, _, _, [] => []
  | first, capNext, prevIsCap, v :: rest =>
    let vIsCap := decide (65 ≤ v.toNat ∧ v.toNat ≤ 90)
    let vIsLow := decide (97 ≤ v.toNat ∧ v.toNat ≤ 122)
    let w : Char :=
      if capNext then (if vIsLow then Char.ofNat (v.toNat - 32) else v)
      else if first then (if vIsCap then Char.ofNat (v.toNat + 32) else v)
      else if prevIsCap && vIsCap then Char.ofNat (v.toNat + 32)
      else v
    if vIsCap || vIsLow then w :: camelLoop false false vIsCap rest
    else if 48 ≤ v.toNat ∧ v.toNat ≤ 57 then w :: camelLoop false true vIsCap rest
    else camelLoop false (v = '_' || v = ' ' || v = '-' || v = '.') vIsCap rest

/-- Removal of leading ASCII white space. -/
def dropSpace : List Char → List Char
  | [] => []
  | c :: cs => if c = ' ' ∨ c = '\n' ∨ c = '\t' ∨ c = '\r' then dropSpace cs else c :: cs

/-- A sample `strcase.ToCamel`. -/
def sampleToCamel (s : String) : String :=
  String.mk (camelLoop true true false (dropSpace (dropSpace s.data).reverse).reverse)

/-- A sample float formatting: plain digits for an integral value of at most
six digits, as Go prints it; the fraction otherwise. -/
def sampleFormatFloat : F64 → String
  | .fin q => if q.den = 1 ∧ q.num.natAbs < 1000000 then toString q.num
    else toString q.num ++ "/" ++ toString q.den
  | .posInf => "+Inf"
  | .negInf => "-Inf"
  | .nan => "NaN"

/-- Value of a hexadecimal digit. -/
def hexValue (c : Char) : Option Nat :=
  if 48 ≤ c.toNat ∧ c.toNat ≤ 57 then some (c.toNat - 48)
  else if 97 ≤ c.toNat ∧ c.toNat ≤ 102 then some (c.toNat - 87)
  else if 65 ≤ c.toNat ∧ c.toNat ≤ 70 then some (c.toNat - 55)
  else none

/-- Decoding of a query string: a plus sign is a space and a percent sign
starts a two-digit escape; `none` on a malformed escape or one above 7F. -/
def unescapeChars : List Char → Option (List Char)
  | [] => some []
  | '%' :: a :: b :: rest =>
    match hexValue a, hexValue b, unescapeChars rest with
    | some x, some y, some r => if x < 8 then some (Char.ofNat (16 * x + y) :: r) else none
    | _, _, _ => none
  | '%' :: _ => none
  | '+' :: rest => (unescapeChars rest).map (fun r => ' ' :: r)
  | c :: rest => (unescapeChars rest).map (fun r => c :: r)

/-- A sample `url.QueryUnescape`. -/
def sampleQueryUnescape (s : String) : String :=
  match unescapeChars s.data with
  | some r => String.mk r
  | none => ""

/-- The body of a JSON string after its opening quote: the text and the rest
of the input. -/
def readString : List Char → List Char → Option (List Char × List Char)
  | _, [] => none
  | acc, '"' :: cs => some (acc.reverse, cs)
  | acc, '\\' :: '"' :: cs => readString ('"' :: acc) cs
  | acc, '\\' :: '\\' :: cs => readString ('\\' :: acc) cs
  | acc, '\\' :: '/' :: cs => readString ('/' :: acc) cs
  | acc, '\\' :: 'n' :: cs => readString ('\n' :: acc) cs
  | acc, '\\' :: 't' :: cs => readString ('\t' :: acc) cs
  | acc, '\\' :: 'r' :: cs => readString ('\r' :: acc) cs
  | _, '\\' :: _ => none
  | acc, c :: cs => if c.toNat < 32 then none else readString (c :: acc) cs

/-- The digits at the head of the input, as a number, and the rest. -/
def readDigits : Nat → List Char → Nat × List Char
  | acc, [] => (acc, [])
  | acc, c :: cs =>
    if 48 ≤ c.toNat ∧ c.toNat ≤ 57 then readDigits (acc * 10 + (c.toNat - 48)) cs
    else (acc, c :: cs)

/-- A JSON integer literal without its sign; `none` for a leading zero, a
fraction or an exponent. -/
def readNat : List Char → Option (Nat × List Char)
  | [] => none
  | c :: cs =>
    if 48 ≤ c.toNat ∧ c.toNat ≤ 57 then
      match readDigits 0 (c :: cs) with
      | (n, rest) =>
        if c = '0' ∧ cs ≠ rest then none
        else
          match rest with
          | '.' :: _ => none
          | 'e' :: _ => none
          | 'E' :: _ => none
          | _ => some (n, rest)
    else none

/-- The `float64` of an integer literal. -/
def floatOfInt (n : Int) : GoVal :=
  if n.natAbs ≤ 2 ^ 53 then .float64 (.fin n) else .float64 (.fin (rne n))

/-- Entry of a decoded object, a repeated key keeping the last value. -/
def putKey (k : String) (v : GoVal) : List (String × GoVal) → List (String × GoVal)
  | [] => [(k, v)]
  | (k2, v2) :: rest => if k2 = k then (k, v) :: rest else (k2, v2) :: putKey k v rest

mutual
/-- A JSON value at the head of the input. -/
def parseValue : Nat → List Char → Option (GoVal × List Char)
  | 0, _ => none
  | fuel + 1, cs =>
    match dropSpace cs with
    | '[' :: rest =>
      match dropSpace rest with
      | ']' :: rest2 => some (.arr [], rest2)
      | _ => parseElems fuel rest []
    | '{' :: rest =>
      match dropSpace rest with
      | '}' :: rest2 => some (.map [], rest2)
      | _ => parseMembers fuel rest []
    | '"' :: rest =>
      match readString [] rest with
      | some (s, rest2) => some (.str (String.mk s), rest2)
      | none => none
    | 't' :: 'r' :: 'u' :: 'e' :: rest => some (.bool true, rest)
    | 'f' :: 'a' :: 'l' :: 's' :: 'e' :: rest => some (.bool false, rest)
    | 'n' :: 'u' :: 'l' :: 'l' :: rest => some (.nil, rest)
    | '-' :: rest =>
      match readNat rest with
      | some (n, rest2) => some (floatOfInt (-(n : Int)), rest2)
      | none => none
    | rest =>
      match readNat rest with
      | some (n, rest2) => some (floatOfInt n, rest2)
      | none => none
/-- The elements of a JSON list after its opening bracket. -/
def parseElems : Nat → List Char → List GoVal → Option (GoVal × List Char)
  | 0, _, _ => none
  | fuel + 1, cs, acc =>
    match parseValue fuel cs with
    | none => none
    | some (v, rest) =>
      match dropSpace rest with
      | ',' :: rest2 => parseElems fuel rest2 (acc ++ [v])
      | ']' :: rest2 => some (.arr (acc ++ [v]), rest2)
      | _ => none
/-- The members of a JSON object after its opening brace. -/
def parseMembers : Nat → List Char → List (String × GoVal) → Option (GoVal × List Char)
  | 0, _, _ => none
  | fuel + 1, cs, acc =>
    match dropSpace cs with
    | '"' :: rest =>
      match readString [] rest with
      | none => none
      | some (k, rest2) =>
        match dropSpace rest2 with
        | ':' :: rest3 =>
          match parseValue fuel rest3 with
          | none => none
          | some (v, rest4) =>
            match dropSpace rest4 with
            | ',' :: rest5 => parseMembers fuel rest5 (putKey (String.mk k) v acc)
            | '}' :: rest5 => some (.map (putKey (String.mk k) v acc), rest5)
            | _ => none
        | _ => none
    | _ => none
end

/-- A sample `json.Unmarshal`. -/
def sampleUnmarshal (s : String) : Option GoVal :=
  match parseValue (s.data.length + 1) s.data with
  | some (v, rest) => if dropSpace rest = [] then some v else none
  | none => none

/-- The sample library. -/
def sampleLib : GoLib where
  ToUpper := asciiUpper
  ToLower := asciiLower
  ToCamel := sampleToCamel
  FormatFloat := sampleFormatFloat
  Unmarshal := sampleUnmarshal
  QueryUnescape := sampleQueryUnescape
  ConvOverflow := fun _ => -(2 : Int) ^ 63

/-! ## Lemmas on the string helpers -/

theorem replaceFrom_single_nil (a : Char) (l : List Char) :
    replaceFrom [a] [] 0 l = l.filter (fun c => !(a == c)) := by
  induction l with
  | nil => rfl
  | cons c cs ih =>
    by_cases h : a = c
    · subst h
      simp [replaceFrom, startsWith, ih]
    · simp [replaceFrom, startsWith, h, ih]

theorem replaceFrom_single_single (a b : Char) (l : List Char) :
    replaceFrom [a] [b] 0 l = l.map (fun c => if c = a then b else c) := by
  induction l with
  | nil => rfl
  | cons c cs ih =>
    by_cases h : a = c
    · subst h
      simp [replaceFrom, startsWith, ih]
    · have h2 : ¬ c = a := fun e => h e.symm
      simp [replaceFrom, startsWith, h, h2, ih]

/-- Removing the double quotes of a text keeps the characters that are not
a double quote. -/
theorem ReplaceAll_quote (s : String) :
    ReplaceAll s "\"" "" = String.mk (s.data.filter (fun c => !('"' == c))) := by
  have h1 : ("\"" : String).data = ['"'] := rfl
  have h2 : ("" : String).data = [] := rfl
  simp [ReplaceAll, h1, h2, replaceFrom_single_nil]

/-- Replacing the spaces of a text by percent signs is a character map. -/
theorem ReplaceAll_space (s : String) :
    ReplaceAll s " " "%" = String.mk (s.data.map (fun c => if c = ' ' then '%' else c)) := by
  have h1 : (" " : String).data = [' '] := rfl
  have h2 : ("%" : String).data = ['%'] := rfl
  simp [ReplaceAll, h1, h2, replaceFrom_single_single]

theorem splitOnChar_of_not_mem (sep : Char) (l : List Char) (h : sep ∉ l) :
    splitOnChar sep l = [l] := by
  induction l with
  | nil => rfl
  | cons c cs ih =>
    have hc : c ≠ sep := fun e => h (by simp [e])
    have hcs : sep ∉ cs := fun e => h (by simp [e])
    simp [splitOnChar, hc, ih hcs]

/-- A field reference without a comma is returned unchanged. -/
theorem NormalizeFieldName_of_no_comma (L : GoLib) (field : String) (h : ',' ∉ field.data) :
    NormalizeFieldName L field = field := by
  simp [NormalizeFieldName, Split, splitOnChar_of_not_mem _ _ h]

/-- For an operator outside the special ones `CreateWhereCause` appends the
fragment `field operator ?` and binds the value formatted to text. -/
theorem CreateWhereCause_plain (L : GoLib) (filter : QueryFilter) (qf : List String)
    (wp : List GoVal) (h : filter.Item.Operator ∉ specialOperators) :
    CreateWhereCause L filter qf wp =
      some (qf ++ [filter.Item.Field ++ " " ++ filter.Item.Operator ++ " ?"],
        wp ++ [.str (fmtV L filter.Item.Value)]) := by
  simp only [specialOperators, List.mem_cons, List.mem_singleton, not_or, List.mem_nil_iff,
    or_false] at h
  obtain ⟨h1, h2, h3, h4, h5, h6, h7⟩ := h
  simp [CreateWhereCause, h1, h2, h3, h4, h5, h6, h7]

theorem SetFilterValue_Field (item : FilterItem) (v : GoVal) :
    (SetFilterValue item v).Field = item.Field := by
  cases v <;> rfl

theorem SetFilterValue_Operator (item : FilterItem) (v : GoVal) :
    (SetFilterValue item v).Operator = item.Operator := by
  cases v <;> rfl

theorem SetFilterValue_Value_scalar (item : FilterItem) (v : GoVal) (h : v.isScalar = true)
    (hnil : item.Value = .nil) : (SetFilterValue item v).Value = v := by
  cases v <;> simp [SetFilterValue, GoVal.isScalar, hnil] at h ⊢

/-- The three filters `CreateFilter` builds from two triples around a
connective. -/
theorem filtersOfValue_triple_op_triple (L : GoLib) (f1 op1 c f2 op2 : String) (v1 v2 : GoVal)
    (hf1 : ',' ∉ f1.data) (hf2 : ',' ∉ f2.data) :
    filtersOfValue L
        (.arr [.arr [.str f1, .str op1, v1], .arr [.str c], .arr [.str f2, .str op2, v2]]) =
      some [
        { Item := { SetFilterValue {} v1 with
            Field := "\"" ++ f1 ++ "\"", Operator := L.ToUpper op1 }, Typ := "multiple" },
        { Item := { Field := "\"\"", Operator := L.ToUpper c }, Typ := "operator" },
        { Item := { SetFilterValue {} v2 with
            Field := "\"" ++ f2 ++ "\"", Operator := L.ToUpper op2 }, Typ := "multiple" }] := by
  have h0 : NormalizeFieldName L "" = "" := NormalizeFieldName_of_no_comma L "" (by simp)
  simp [filtersOfValue, outerLoop, outerStep, tripleLoop, tripleStep,
    NormalizeFieldName_of_no_comma L f1 hf1, NormalizeFieldName_of_no_comma L f2 hf2, h0,
    SetFilterValue_Field, SetFilterValue_Operator]
  constructor <;> [cases v1; cases v2] <;> simp [SetFilterValue]

/-- C1 (amended): a filter expression `[[f1, op1, v1], [c], [f2, op2, v2]]`
with comma-free fields, operators outside the special ones and scalar values
is parsed into three filters of kinds multiple, operator, multiple, and is
compiled to the text `f1 OP1 ? C f2 OP2 ?` (operators upper-cased, double
quotes removed) with the two values, each formatted to text, as parameters. -/
theorem C1_triples_compile (L : GoLib) (s f1 op1 c f2 op2 : String) (v1 v2 : GoVal)
    (pageSearch columnFilter pageSort : String) (sr : String × List GoVal)
    (hs : s ≠ "")
    (hdec : L.Unmarshal s =
      some (.arr [.arr [.str f1, .str op1, v1], .arr [.str c], .arr [.str f2, .str op2, v2]]))
    (hf1 : ',' ∉ f1.data) (hf2 : ',' ∉ f2.data)
    (hop1 : L.ToUpper op1 ∉ specialOperators) (hop2 : L.ToUpper op2 ∉ specialOperators)
    (hv1 : v1.isScalar = true) (hv2 : v2.isScalar = true)
    (hsearch : searchPart L pageSearch columnFilter = some sr) :
    (∃ a b d, CreateFilter L s = some [a, b, d] ∧
      a.Typ = "multiple" ∧ b.Typ = "operator" ∧ d.Typ = "multiple") ∧
    CreateCustomFilters L s pageSearch columnFilter pageSort = some {
      ResultFilters := ReplaceAll (f1 ++ " " ++ L.ToUpper op1 ++ " ? " ++ L.ToUpper c ++ " " ++
        f2 ++ " " ++ L.ToUpper op2 ++ " ?") "\"" ""
      whereFilters := [.str (fmtV L v1), .str (fmtV L v2)]
      ResultSearch := sr.1
      whereSearch := sr.2
      orderBy := sortPart L pageSort } := by
  have hparse := filtersOfValue_triple_op_triple L f1 op1 c f2 op2 v1 v2 hf1 hf2
  have hcf : CreateFilter L s = filtersOfValue L (.arr [.arr [.str f1, .str op1, v1],
      .arr [.str c], .arr [.str f2, .str op2, v2]]) := by
    simp only [CreateFilter, hdec]
  rw [hparse] at hcf
  refine ⟨⟨_, _, _, hcf, rfl, rfl, rfl⟩, ?_⟩
  have hq : ("\"" : String).data = ['"'] := rfl
  have hs2 : ¬ ("" = s) := fun e => hs e.symm
  simp only [CreateCustomFilters, hsearch, filterPart, hs2, hcf]
  simp [hs2, filterLoop, CreateWhereCause_plain, hop1, hop2, Join, ReplaceAll_quote, hq,
    SetFilterValue_Value_scalar _ _ hv1, SetFilterValue_Value_scalar _ _ hv2]

/-- The documented expression and its compilation, an instance of
`C1_triples_compile` on the sample library. -/
theorem C1_triples_compile_witness :
    CreateCustomFilters sampleLib
        "[[\"age\", \">\", 18], [\"AND\"], [\"status\", \"=\", \"active\"]]" "" "" "" =
      some {
        ResultFilters := "age > ? AND status = ?"
        whereFilters := [.str "18", .str "active"]
        ResultSearch := ""
        whereSearch := []
        orderBy := "id desc" } :=
  (C1_triples_compile sampleLib
    "[[\"age\", \">\", 18], [\"AND\"], [\"status\", \"=\", \"active\"]]"
    "age" ">" "AND" "status" "=" (.float64 (.fin 18)) (.str "active") "" "" "" ("", [])
    (by decide) rfl (by decide) (by decide) (by decide) (by decide) rfl rfl rfl).2

/-- C1 (as stated) fails: for the documented expression the first bound
parameter is the text `18`, not the number 18. -/
theorem C1_counterexample :
    sampleLib.Unmarshal "[[\"age\", \">\", 18], [\"AND\"], [\"status\", \"=\", \"active\"]]" =
      some (.arr [.arr [.str "age", .str ">", .float64 (.fin 18)], .arr [.str "AND"],
        .arr [.str "status", .str "=", .str "active"]]) ∧
    ∃ r, CreateCustomFilters sampleLib
        "[[\"age\", \">\", 18], [\"AND\"], [\"status\", \"=\", \"active\"]]" "" "" "" = some r ∧
      r.ResultFilters = "age > ? AND status = ?" ∧
      r.whereFilters = [.str "18", .str "active"] ∧
      r.whereFilters ≠ [.float64 (.fin 18), .str "active"] :=
  ⟨rfl, _, rfl, rfl, rfl, by simp⟩

/-! ## Items built by the parser carry the tag of their value -/

theorem SetFilterValue_Tagged (item : FilterItem) (v : GoVal) (h : item.Tagged) :
    (SetFilterValue item v).Tagged := by
  cases v <;> first | exact h | rfl

theorem tripleStep_Tagged {n i : Nat} {a : GoVal} {f g : QueryFilter}
    (hstep : tripleStep n i a f = some g) (h : f.Item.Tagged) : g.Item.Tagged := by
  unfold tripleStep at hstep
  split_ifs at hstep
  · cases a <;> simp at hstep
    subst hstep
    exact h
  · cases a <;> simp at hstep
    subst hstep
    exact h
  · simp at hstep
    subst hstep
    exact SetFilterValue_Tagged _ a h
  · cases a <;> simp at hstep
    subst hstep
    exact h
  · simp at hstep
    subst hstep
    exact SetFilterValue_Tagged _ a h
  · simp at hstep
    subst hstep
    exact h

theorem tripleLoop_Tagged (n : Nat) (l : List GoVal) :
    ∀ (i : Nat) (f g : QueryFilter), tripleLoop n i l f = some g → f.Item.Tagged →
      g.Item.Tagged := by
  induction l with
  | nil =>
    intro i f g hloop h
    simp [tripleLoop] at hloop
    subst hloop
    exact h
  | cons a rest ih =>
    intro i f g hloop h
    simp only [tripleLoop] at hloop
    cases hstep : tripleStep n i a f with
    | none => simp [hstep] at hloop
    | some f2 =>
      simp only [hstep] at hloop
      exact ih (i + 1) f2 g hloop (tripleStep_Tagged hstep h)

theorem singleStep_Tagged (L : GoLib) (len x : Nat) (v : GoVal) (single : QueryFilter)
    (h : single.Item.Tagged) : (singleStep L len x v single).Item.Tagged := by
  unfold singleStep
  split_ifs
  · cases v <;> exact h
  · exact SetFilterValue_Tagged _ v h
  · cases v <;> exact h
  · exact SetFilterValue_Tagged _ v h
  · exact h

theorem outerStep_AllTagged {L : GoLib} {len x : Nat} {v : GoVal} {st st2 : ParseState}
    (hstep : outerStep L len x v st = some st2) (h : st.AllTagged) : st2.AllTagged := by
  unfold outerStep at hstep
  split at hstep
  · rename_i item _
    cases hloop : tripleLoop item.length 0 item { Item := {}, Typ := "multiple" } with
    | none => simp [hloop] at hstep
    | some filter =>
      simp only [hloop, Option.some.injEq] at hstep
      subst hstep
      have ht : filter.Item.Tagged := tripleLoop_Tagged _ _ 0 _ _ hloop rfl
      refine ⟨?_, h.2⟩
      intro f hf
      rcases List.mem_append.mp hf with hf | hf
      · exact h.1 f hf
      · rw [List.mem_singleton] at hf
        subst hf
        exact ht
  · simp only [Option.some.injEq] at hstep
    subst hstep
    exact ⟨h.1, singleStep_Tagged L len x _ _ h.2⟩

theorem outerLoop_AllTagged (L : GoLib) (len : Nat) (l : List GoVal) :
    ∀ (x : Nat) (st st2 : ParseState), outerLoop L len x l st = some st2 → st.AllTagged →
      st2.AllTagged := by
  induction l with
  | nil =>
    intro x st st2 hloop h
    simp [outerLoop] at hloop
    subst hloop
    exact h
  | cons v rest ih =>
    intro x st st2 hloop h
    simp only [outerLoop] at hloop
    cases hstep : outerStep L len x v st with
    | none => simp [hstep] at hloop
    | some st1 =>
      simp only [hstep] at hloop
      exact ih (x + 1) st1 st2 hloop (outerStep_AllTagged hstep h)

/-- Every item `CreateFilter` returns carries the tag of its value. -/
theorem CreateFilter_Tagged (L : GoLib) (s : String) (fs : List QueryFilter)
    (h : CreateFilter L s = some fs) : ∀ f ∈ fs, f.Item.Tagged := by
  unfold CreateFilter at h
  cases hdec : L.Unmarshal s with
  | none =>
    simp [hdec] at h
    subst h
    simp
  | some output =>
    simp only [hdec] at h
    unfold filtersOfValue at h
    split at h
    · rename_i iface
      cases hloop : outerLoop L iface.length 0 iface
          { filters := [], hasSingle := false, singleFilter := { Item := {}, Typ := "single" } } with
      | none => simp [hloop] at h
      | some st =>
        simp only [hloop, Option.some.injEq] at h
        have hinv : st.AllTagged :=
          outerLoop_AllTagged L _ iface 0 _ st hloop ⟨by simp, rfl⟩
        subst h
        intro f hf
        split_ifs at hf
        · rcases List.mem_append.mp hf with hf | hf
          · exact hinv.1 f hf
          · rw [List.mem_singleton] at hf
            subst hf
            exact hinv.2
        · exact hinv.1 f hf
    · simp at h
      subst h
      simp

theorem SetFilterValue_tag (v : GoVal) :
    (SetFilterValue {} v).ValueType = v.tag := by
  cases v <;> rfl

theorem likeValue_tagged (L : GoLib) (item : FilterItem) (ht : item.Tagged) :
    ∃ t, likeValue L item = some t := by
  obtain ⟨fld, op, v, ty⟩ := item
  simp only [FilterItem.Tagged] at ht
  cases v <;> simp only [GoVal.tag] at ht <;> subst ht <;> simp [likeValue]

/-- The fragment `CreateWhereCause` appends for an item whose value is
present depends on the field and the operator only. -/
theorem CreateWhereCause_fragment (L : GoLib) (f : QueryFilter) (qf : List String)
    (wp : List GoVal) (hv : f.Item.Value.isNil = false) (ht : f.Item.Tagged) :
    ∃ p, CreateWhereCause L f qf wp =
      some (qf ++ [f.Item.Field ++ " " ++ f.Item.Operator ++
        (if f.Item.Operator = "BETWEEN" then " ? AND ?" else " ?")], p) := by
  obtain ⟨t, hlike⟩ := likeValue_tagged L f.Item ht
  unfold CreateWhereCause
  rw [hlike]
  simp only [hv, Bool.false_eq_true, and_false, if_false]
  by_cases h1 : f.Item.Operator = "LIKE" ∨ f.Item.Operator = "NOT LIKE"
  · have hb : f.Item.Operator ≠ "BETWEEN" := by
      rcases h1 with h | h <;> rw [h] <;> decide
    rw [if_pos h1, if_neg hb]
    by_cases h : t ≠ "" <;> simp [h]
  · rw [if_neg h1]
    by_cases h2 : f.Item.Operator = "IN" ∨ f.Item.Operator = "NOT IN"
    · have hb : f.Item.Operator ≠ "BETWEEN" := by
        rcases h2 with h | h <;> rw [h] <;> decide
      rw [if_pos h2, if_neg hb]
      split_ifs <;> [split; skip] <;> exact ⟨_, rfl⟩
    · rw [if_neg h2]
      by_cases h3 : f.Item.Operator = "BETWEEN"
      · rw [if_pos h3, if_pos h3]
        split_ifs <;> [(split <;> [split; skip]); skip] <;> exact ⟨_, rfl⟩
      · rw [if_neg h3, if_neg h3]
        exact ⟨_, rfl⟩

/-- C2: two filter items with the same field and the same operator, whose
values are present and carry their tags, make `CreateWhereCause` append one
and the same fragment; the values reach the parameter list only. -/
theorem C2_fragment_ignores_value (L : GoLib) (a b : QueryFilter) (qf : List String)
    (wa wb : List GoVal)
    (hf : a.Item.Field = b.Item.Field) (ho : a.Item.Operator = b.Item.Operator)
    (ha : a.Item.Value.isNil = false) (hb : b.Item.Value.isNil = false)
    (hta : a.Item.Tagged) (htb : b.Item.Tagged) :
    ∃ frag pa pb, CreateWhereCause L a qf wa = some (qf ++ [frag], pa) ∧
      CreateWhereCause L b qf wb = some (qf ++ [frag], pb) := by
  obtain ⟨pa, hpa⟩ := CreateWhereCause_fragment L a qf wa ha hta
  obtain ⟨pb, hpb⟩ := CreateWhereCause_fragment L b qf wb hb htb
  rw [← hf, ← ho] at hpb
  exact ⟨_, pa, pb, hpa, hpb⟩

/-- Two items on the field `name` under `LIKE`, one with a text holding
predicate syntax and one with a number, an instance of
`C2_fragment_ignores_value`. -/
theorem C2_fragment_ignores_value_witness :
    ∃ frag pa pb,
      CreateWhereCause sampleLib
        ⟨⟨"name", "LIKE", .str "1 OR 1=1", "string"⟩, "single"⟩ ["x"] [] =
          some (["x"] ++ [frag], pa) ∧
      CreateWhereCause sampleLib
        ⟨⟨"name", "LIKE", .float64 (.fin 7), "float64"⟩, "multiple"⟩ ["x"] [.nil] =
          some (["x"] ++ [frag], pb) :=
  C2_fragment_ignores_value sampleLib _ _ ["x"] [] [.nil] rfl rfl rfl rfl rfl rfl

/-- A nested list that starts with a value other than a text makes the part of
`CreateFilter` after the decoding panic, whatever follows. -/
theorem filtersOfValue_nested_non_text (L : GoLib) (a : GoVal) (rest more : List GoVal)
    (h : ∀ s, a ≠ .str s) : filtersOfValue L (.arr (.arr (a :: rest) :: more)) = none := by
  have hstep : ∀ n f, tripleStep n 0 a f = none := by
    intro n f
    unfold tripleStep
    cases a <;> first | exact absurd rfl (h _) | (by_cases hn : n = 1 <;> simp [hn])
  simp [filtersOfValue, outerLoop, outerStep, tripleLoop, hstep]

/-- C3 (code at the failing input): a nested list whose field position, or
whose only position, holds a number makes `CreateFilter` panic, where a flat
list with a number in the field position is parsed. -/
theorem C3_nested_non_string_panics :
    sampleLib.Unmarshal "[[1, \"=\", 2]]" =
      some (.arr [.arr [.float64 (.fin 1), .str "=", .float64 (.fin 2)]]) ∧
    CreateFilter sampleLib "[[1, \"=\", 2]]" = none ∧
    sampleLib.Unmarshal "[[5]]" = some (.arr [.arr [.float64 (.fin 5)]]) ∧
    CreateFilter sampleLib "[[5]]" = none ∧
    (CreateFilter sampleLib "[1, \"=\", 2]").isSome = true :=
  ⟨rfl, rfl, rfl, rfl, rfl⟩

/-! ## Lemmas on rounding -/

theorem roundHalfEven_intCast (z : ℤ) : roundHalfEven (z : ℚ) = z := by
  simp [roundHalfEven]

theorem floor_le_roundHalfEven (s : ℚ) : ⌊s⌋ ≤ roundHalfEven s := by
  unfold roundHalfEven
  split_ifs <;> omega

theorem roundHalfEven_le_floor_add_one (s : ℚ) : roundHalfEven s ≤ ⌊s⌋ + 1 := by
  unfold roundHalfEven
  split_ifs <;> omega

/-- An integer below `s` is below the rounding of `s`. -/
theorem le_roundHalfEven {n : ℤ} {s : ℚ} (h : (n : ℚ) ≤ s) : n ≤ roundHalfEven s :=
  le_trans (Int.le_floor.mpr h) (floor_le_roundHalfEven s)

/-- An integer above `s` is above the rounding of `s`. -/
theorem roundHalfEven_le {n : ℤ} {s : ℚ} (h : s ≤ (n : ℚ)) : roundHalfEven s ≤ n := by
  by_cases hs : s = (⌊s⌋ : ℚ)
  · have h1 : roundHalfEven s = ⌊s⌋ := by
      conv_lhs => rw [hs]
      exact roundHalfEven_intCast _
    rw [h1]
    exact Int.cast_le.mp (hs ▸ h)
  · have hlt : (⌊s⌋ : ℚ) < s := lt_of_le_of_ne (Int.floor_le s) (fun e => hs e.symm)
    have h2 : ⌊s⌋ < n := Int.cast_lt.mp (lt_of_lt_of_le hlt h)
    have := roundHalfEven_le_floor_add_one s
    omega

/-- An integer more than one half below `s` is strictly below the rounding
of `s`. -/
theorem lt_roundHalfEven {n : ℤ} {s : ℚ} (h : (n : ℚ) + 1 / 2 < s) : n < roundHalfEven s := by
  have hn : n ≤ ⌊s⌋ := Int.le_floor.mpr (by linarith)
  rcases lt_or_eq_of_le hn with hlt | heq
  · exact lt_of_lt_of_le hlt (floor_le_roundHalfEven s)
  · have hfrac : ¬ (s - (⌊s⌋ : ℚ) < 1 / 2) := by
      rw [← heq]; linarith
    have hfrac2 : 1 / 2 < s - (⌊s⌋ : ℚ) := by
      rw [← heq]; linarith
    unfold roundHalfEven
    rw [if_neg hfrac, if_pos hfrac2]
    omega

/-- The exponent of the last kept bit. -/
theorem rne_of_ne_zero {q : ℚ} (h : q ≠ 0) :
    rne q = (roundHalfEven (q / (2 : ℚ) ^ (Int.log 2 |q| - 52)) : ℚ) *
      (2 : ℚ) ^ (Int.log 2 |q| - 52) := by
  simp [rne, h]

theorem two_zpow_pos (e : ℤ) : (0 : ℚ) < (2 : ℚ) ^ e := zpow_pos (by norm_num) e

theorem zpow_log_le {q : ℚ} (h : 0 < q) : (2 : ℚ) ^ (Int.log 2 q) ≤ q := by
  have := Int.zpow_log_le_self (b := 2) (r := q) (by norm_num) h
  simpa using this

theorem lt_zpow_log_succ (q : ℚ) : q < (2 : ℚ) ^ (Int.log 2 q + 1) := by
  have := Int.lt_zpow_succ_log_self (b := 2) (by norm_num) q
  simpa using this

/-- The exponent of a positive rational between two consecutive powers of two. -/
theorem log_eq_of_bounds {q : ℚ} {k : ℤ} (h1 : (2 : ℚ) ^ k ≤ q) (h2 : q < (2 : ℚ) ^ (k + 1)) :
    Int.log 2 q = k := by
  have hq : 0 < q := lt_of_lt_of_le (two_zpow_pos k) h1
  have a : k ≤ Int.log 2 q := by
    rw [← Int.zpow_le_iff_le_log (b := 2) (by norm_num) hq]
    simpa using h1
  have b : Int.log 2 q < k + 1 := by
    rw [← Int.lt_zpow_iff_log_lt (b := 2) (by norm_num) hq]
    simpa using h2
  omega

/-- A value whose scaled form is already an integer is not changed. -/
theorem rne_eq_self_of_scaled_int {q : ℚ} (z : ℤ)
    (hz : q / (2 : ℚ) ^ (Int.log 2 |q| - 52) = z) : rne q = q := by
  by_cases h : q = 0
  · simp [rne, h]
  · rw [rne_of_ne_zero h, hz, roundHalfEven_intCast, ← hz]
    field_simp

/-- Zero and positive values round to zero and positive values. -/
theorem rne_nonneg {q : ℚ} (h : 0 ≤ q) : 0 ≤ rne q := by
  by_cases h0 : q = 0
  · simp [rne, h0]
  · rw [rne_of_ne_zero h0]
    apply mul_nonneg _ (two_zpow_pos _).le
    have : (0 : ℤ) ≤ roundHalfEven (q / (2 : ℚ) ^ (Int.log 2 |q| - 52)) :=
      le_roundHalfEven (by simpa using div_nonneg h (two_zpow_pos _).le)
    exact_mod_cast this

theorem pow52_mul_zpow (k : ℤ) :
    ((2 ^ 52 : ℤ) : ℚ) * (2 : ℚ) ^ (k - 52) = (2 : ℚ) ^ k := by
  rw [zpow_sub₀ (by norm_num : (2 : ℚ) ≠ 0)]
  norm_num
  ring

/-- A positive value rounds to at least the power of two below it. -/
theorem zpow_log_le_rne {q : ℚ} (h : 0 < q) : (2 : ℚ) ^ (Int.log 2 q) ≤ rne q := by
  rw [rne_of_ne_zero h.ne', abs_of_pos h]
  have hs : ((2 ^ 52 : ℤ) : ℚ) ≤ q / (2 : ℚ) ^ (Int.log 2 q - 52) := by
    rw [le_div_iff₀ (two_zpow_pos _)]
    rw [pow52_mul_zpow]
    exact zpow_log_le h
  have hr := le_roundHalfEven hs
  have hr2 : ((2 ^ 52 : ℤ) : ℚ) ≤ (roundHalfEven (q / (2 : ℚ) ^ (Int.log 2 q - 52)) : ℚ) := by
    exact_mod_cast hr
  calc (2 : ℚ) ^ (Int.log 2 q) = ((2 ^ 52 : ℤ) : ℚ) * (2 : ℚ) ^ (Int.log 2 q - 52) :=
        (pow52_mul_zpow _).symm
    _ ≤ _ := mul_le_mul_of_nonneg_right hr2 (two_zpow_pos _).le

theorem rne_pos {q : ℚ} (h : 0 < q) : 0 < rne q :=
  lt_of_lt_of_le (two_zpow_pos _) (zpow_log_le_rne h)

/-- A power of two is not changed. -/
theorem rne_zpow (k : ℤ) : rne ((2 : ℚ) ^ k) = (2 : ℚ) ^ k := by
  apply rne_eq_self_of_scaled_int (2 ^ 52)
  have hlog : Int.log 2 |(2 : ℚ) ^ k| = k := by
    rw [abs_of_pos (two_zpow_pos k)]
    exact log_eq_of_bounds le_rfl (zpow_lt_zpow_right₀ (by norm_num) (by omega))
  rw [hlog, div_eq_iff (two_zpow_pos _).ne', pow52_mul_zpow]

/-- A positive value at most a power of two rounds to at most that power. -/
theorem rne_le_zpow {q : ℚ} {k : ℤ} (h : 0 < q) (hk : q ≤ (2 : ℚ) ^ k) : rne q ≤ (2 : ℚ) ^ k := by
  rcases eq_or_lt_of_le hk with heq | hlt
  · rw [heq, rne_zpow]
  · have hE : Int.log 2 q + 1 ≤ k := by
      have : Int.log 2 q < k := by
        rw [← Int.lt_zpow_iff_log_lt (b := 2) (by norm_num) h]
        simpa using hlt
      omega
    rw [rne_of_ne_zero h.ne', abs_of_pos h]
    have hs : q / (2 : ℚ) ^ (Int.log 2 q - 52) ≤ ((2 ^ 53 : ℤ) : ℚ) := by
      rw [div_le_iff₀ (two_zpow_pos _)]
      have h2 : ((2 ^ 53 : ℤ) : ℚ) * (2 : ℚ) ^ (Int.log 2 q - 52) = (2 : ℚ) ^ (Int.log 2 q + 1) := by
        rw [zpow_sub₀ (by norm_num : (2 : ℚ) ≠ 0), zpow_add₀ (by norm_num : (2 : ℚ) ≠ 0)]
        norm_num
        ring
      rw [h2]
      exact (lt_zpow_log_succ q).le
    have hr : (roundHalfEven (q / (2 : ℚ) ^ (Int.log 2 q - 52)) : ℚ) ≤ ((2 ^ 53 : ℤ) : ℚ) := by
      exact_mod_cast roundHalfEven_le hs
    calc _ ≤ ((2 ^ 53 : ℤ) : ℚ) * (2 : ℚ) ^ (Int.log 2 q - 52) :=
          mul_le_mul_of_nonneg_right hr (two_zpow_pos _).le
      _ = (2 : ℚ) ^ (Int.log 2 q + 1) := by
          rw [zpow_sub₀ (by norm_num : (2 : ℚ) ≠ 0), zpow_add₀ (by norm_num : (2 : ℚ) ≠ 0)]
          norm_num
          ring
      _ ≤ (2 : ℚ) ^ k := zpow_le_zpow_right₀ (by norm_num) hE

/-- Rounding commutes with the change of sign. -/
theorem roundHalfEven_neg (s : ℚ) : roundHalfEven (-s) = -roundHalfEven s := by
  by_cases hs : s = (⌊s⌋ : ℚ)
  · rw [hs, ← Int.cast_neg, roundHalfEven_intCast, roundHalfEven_intCast]
  · have hlt : (⌊s⌋ : ℚ) < s := lt_of_le_of_ne (Int.floor_le s) (fun e => hs e.symm)
    have hlt2 : s < (⌊s⌋ : ℚ) + 1 := Int.lt_floor_add_one s
    have hfl : ⌊-s⌋ = -⌊s⌋ - 1 := by
      rw [Int.floor_eq_iff]
      push_cast
      constructor <;> linarith
    unfold roundHalfEven
    rw [hfl]
    push_cast
    split_ifs <;> first | omega | (exfalso; linarith)

theorem rne_neg (q : ℚ) : rne (-q) = -rne q := by
  by_cases h : q = 0
  · simp [rne, h]
  · have h2 : -q ≠ 0 := neg_ne_zero.mpr h
    rw [rne_of_ne_zero h, rne_of_ne_zero h2, abs_neg, neg_div, roundHalfEven_neg]
    push_cast
    ring

theorem rne_neg_of_neg {q : ℚ} (h : q < 0) : rne q < 0 := by
  have := rne_pos (neg_pos.mpr h)
  rw [rne_neg] at this
  linarith

/-- An integer of absolute value at most `2 ^ 53` is a `float64`. -/
theorem rne_natCast_of_le (n : ℕ) (h : n ≤ 2 ^ 53) : rne (n : ℚ) = n := by
  rcases Nat.eq_zero_or_pos n with h0 | hpos
  · simp [rne, h0]
  have hq : (0 : ℚ) < n := by exact_mod_cast hpos
  rcases eq_or_lt_of_le h with heq | hlt
  · have : (n : ℚ) = (2 : ℚ) ^ (53 : ℤ) := by
      rw [heq]; norm_num
    rw [this, rne_zpow]
  · have hE : Int.log 2 (n : ℚ) < 53 := by
      rw [← Int.lt_zpow_iff_log_lt (b := 2) (by norm_num) hq]
      have h53 : ((2 : ℕ) : ℚ) ^ (53 : ℤ) = ((2 ^ 53 : ℕ) : ℚ) := by norm_num
      rw [h53]
      exact_mod_cast hlt
    obtain ⟨k, hk⟩ : ∃ k : ℕ, Int.log 2 (n : ℚ) - 52 = -(k : ℤ) :=
      ⟨(52 - Int.log 2 (n : ℚ)).toNat, by omega⟩
    apply rne_eq_self_of_scaled_int ((n : ℤ) * 2 ^ k)
    rw [abs_of_pos hq, hk, zpow_neg, zpow_natCast]
    push_cast
    field_simp

theorem rne_intCast_of_abs_le (n : ℤ) (h : |n| ≤ 2 ^ 53) : rne (n : ℚ) = n := by
  rcases le_total 0 n with hn | hn
  · obtain ⟨m, rfl⟩ := Int.eq_ofNat_of_zero_le hn
    rw [abs_of_nonneg hn] at h
    have : m ≤ 2 ^ 53 := by exact_mod_cast h
    simpa using rne_natCast_of_le m this
  · obtain ⟨m, hm⟩ := Int.eq_ofNat_of_zero_le (neg_nonneg.mpr hn)
    rw [abs_of_nonpos hn, hm] at h
    have h2 : m ≤ 2 ^ 53 := by exact_mod_cast h
    have h3 : (n : ℚ) = -(m : ℚ) := by
      have : n = -(m : ℤ) := by omega
      rw [this]; push_cast; rfl
    rw [h3, rne_neg, rne_natCast_of_le m h2]

/-- The rounded quotient of a positive integer up to `2 ^ 53` by a positive
integer has the
ceiling of the exact quotient. -/
theorem ceil_rne_div (a b : ℤ) (ha : 0 < a) (ha2 : a ≤ 2 ^ 53) (hb : 0 < b) :
    ⌈rne ((a : ℚ) / b)⌉ = ⌈(a : ℚ) / b⌉ := by
  have haq : (0 : ℚ) < a := by exact_mod_cast ha
  have hbq : (0 : ℚ) < b := by exact_mod_cast hb
  have hb1 : (1 : ℚ) ≤ b := by exact_mod_cast hb
  have hq : (0 : ℚ) < (a : ℚ) / b := div_pos haq hbq
  have hqa : (a : ℚ) / b ≤ a := div_le_self haq.le hb1
  have ha53 : (a : ℚ) ≤ (2 : ℚ) ^ (53 : ℤ) := by
    have : (a : ℚ) ≤ ((2 ^ 53 : ℤ) : ℚ) := by exact_mod_cast ha2
    have h53 : (2 : ℚ) ^ (53 : ℤ) = ((2 ^ 53 : ℤ) : ℚ) := by norm_num
    rw [h53]
    exact this
  rcases eq_or_lt_of_le (le_trans hqa ha53) with heq | hlt
  · rw [heq, rne_zpow]
  -- the quotient is below `2 ^ 53`: the last kept bit has a non-positive exponent
  have hE : Int.log 2 ((a : ℚ) / b) < 53 := by
    rw [← Int.lt_zpow_iff_log_lt (b := 2) (by norm_num) hq]
    simpa using hlt
  obtain ⟨k, hk⟩ : ∃ k : ℕ, Int.log 2 ((a : ℚ) / b) - 52 = -(k : ℤ) :=
    ⟨(52 - Int.log 2 ((a : ℚ) / b)).toNat, by omega⟩
  have hN : (0 : ℚ) < (2 : ℚ) ^ k := pow_pos (by norm_num) k
  have hrne : rne ((a : ℚ) / b) =
      (roundHalfEven ((a : ℚ) / b * (2 : ℚ) ^ k) : ℚ) / (2 : ℚ) ^ k := by
    rw [rne_of_ne_zero hq.ne', abs_of_pos hq, hk, zpow_neg, zpow_natCast, div_inv_eq_mul]
    rfl
  have hs52 : ((2 ^ 52 : ℤ) : ℚ) ≤ (a : ℚ) / b * (2 : ℚ) ^ k := by
    have h1 := zpow_log_le hq
    have h2 : (2 : ℚ) ^ (Int.log 2 ((a : ℚ) / b)) = ((2 ^ 52 : ℤ) : ℚ) / (2 : ℚ) ^ k := by
      rw [← pow52_mul_zpow, hk, zpow_neg, zpow_natCast]
      rfl
    rw [h2, div_le_iff₀ hN] at h1
    exact h1
  set c : ℤ := ⌈(a : ℚ) / b⌉ with hc
  have hc1 : (a : ℚ) / b ≤ c := Int.le_ceil _
  have hc2 : (c : ℚ) - 1 < (a : ℚ) / b := by
    have := Int.ceil_lt_add_one ((a : ℚ) / b)
    linarith
  rw [Int.ceil_eq_iff, hrne]
  constructor
  · -- lower bound
    rw [lt_div_iff₀ hN]
    have hgoal : (c - 1) * 2 ^ k < roundHalfEven ((a : ℚ) / b * (2 : ℚ) ^ k) := by
      by_cases hsmall : (c - 1) * 2 ^ k < (2 : ℤ) ^ 52
      · exact lt_of_lt_of_le hsmall (le_roundHalfEven hs52)
      · push_neg at hsmall
        apply lt_roundHalfEven
        -- `a - (c - 1) * b` is a positive integer
        have hpos : (c - 1) * b < a := by
          have : ((c : ℚ) - 1) * b < a := by
            rwa [lt_div_iff₀ hbq] at hc2
          exact_mod_cast this
        have hc0 : 0 < c - 1 := by
          by_contra hneg
          push_neg at hneg
          have : (c - 1) * 2 ^ k ≤ 0 :=
            mul_nonpos_of_nonpos_of_nonneg hneg (pow_nonneg (by norm_num) k)
          have : (0 : ℤ) < 2 ^ 52 := by norm_num
          omega
        -- hence `b < 2 * 2 ^ k`
        have hbN : b < 2 * 2 ^ k := by
          have h1 : 2 ^ 52 * b ≤ (c - 1) * 2 ^ k * b :=
            mul_le_mul_of_nonneg_right hsmall hb.le
          have h2 : (c - 1) * 2 ^ k * b < a * 2 ^ k := by
            have : (c - 1) * b * 2 ^ k < a * 2 ^ k :=
              mul_lt_mul_of_pos_right hpos (pow_pos (by norm_num) k)
            linarith
          have h3 : a * 2 ^ k ≤ 2 ^ 53 * 2 ^ k :=
            mul_le_mul_of_nonneg_right ha2 (pow_nonneg (by norm_num) k)
          have h4 : (2 : ℤ) ^ 52 * b < 2 ^ 52 * (2 * 2 ^ k) := by
            have : (2 : ℤ) ^ 53 = 2 ^ 52 * 2 := by norm_num
            nlinarith
          exact lt_of_mul_lt_mul_left h4 (by norm_num)
        have hbNq : (b : ℚ) < 2 * (2 : ℚ) ^ k := by exact_mod_cast hbN
        have hstep : (1 : ℚ) ≤ a - (c - 1) * b := by
          have : (1 : ℤ) ≤ a - (c - 1) * b := by omega
          exact_mod_cast this
        have hdiff : (a : ℚ) / b * (2 : ℚ) ^ k - ((c - 1) * 2 ^ k : ℤ) =
            (a - (c - 1) * b) * ((2 : ℚ) ^ k / b) := by
          push_cast
          field_simp
          ring
        have hhalf : (1 : ℚ) / 2 < (2 : ℚ) ^ k / b := by
          rw [lt_div_iff₀ hbq]
          linarith
        have : (1 : ℚ) / 2 < (a - (c - 1) * b) * ((2 : ℚ) ^ k / b) := by
          have hpos2 : (0 : ℚ) < (2 : ℚ) ^ k / b := div_pos hN hbq
          nlinarith
        linarith
    have : (((c - 1) * 2 ^ k : ℤ) : ℚ) < (roundHalfEven ((a : ℚ) / b * (2 : ℚ) ^ k) : ℚ) := by
      exact_mod_cast hgoal
    push_cast at this
    linarith
  · -- upper bound
    rw [div_le_iff₀ hN]
    have hle : (a : ℚ) / b * (2 : ℚ) ^ k ≤ ((c * 2 ^ k : ℤ) : ℚ) := by
      push_cast
      exact mul_le_mul_of_nonneg_right hc1 hN.le
    have := roundHalfEven_le hle
    have h2 : (roundHalfEven ((a : ℚ) / b * (2 : ℚ) ^ k) : ℚ) ≤ ((c * 2 ^ k : ℤ) : ℚ) := by
      exact_mod_cast this
    push_cast at h2
    exact h2

/-! ## The page count -/

theorem totalPagesOf_zero_size (tv : ℤ) (h : 0 ≤ tv) : totalPagesOf 0 tv = .fin 0 := by
  rcases eq_or_lt_of_le h with h0 | hpos
  · subst h0
    simp [totalPagesOf, F64.ofInt, rne, F64.div, F64.ceil, F64.isPosInf, F64.isNaN]
  · have h1 : (0 : ℚ) < rne (tv : ℚ) := rne_pos (by exact_mod_cast hpos)
    simp [totalPagesOf, F64.ofInt, F64.div, F64.ceil, F64.isPosInf, F64.isNaN, h1, h1.ne',
      show rne (0 : ℚ) = 0 from by simp [rne]]

/-- With a page size of zero and a negative count the quotient is the negative
infinity, which the function lets through. -/
theorem totalPagesOf_zero_size_of_neg (tv : ℤ) (h : tv < 0) : totalPagesOf 0 tv = .negInf := by
  have h1 : rne (tv : ℚ) < 0 := rne_neg_of_neg (by exact_mod_cast h)
  simp [totalPagesOf, F64.ofInt, F64.div, F64.ceil, F64.isPosInf, F64.isNaN, h1.ne,
    not_lt.mpr h1.le, show rne (0 : ℚ) = 0 from by simp [rne]]

/-- With a divisor that is not zero the page count is the ceiling of the
rounded quotient of the two converted integers. -/
theorem totalPagesOf_of_ne_zero (ps tv : ℤ) (h : ps ≠ 0) :
    totalPagesOf ps tv = .fin (⌈rne (rne (tv : ℚ) / rne (ps : ℚ))⌉ : ℤ) := by
  have hps : rne (ps : ℚ) ≠ 0 := by
    rcases lt_or_gt_of_ne h with hn | hp
    · exact (rne_neg_of_neg (by exact_mod_cast hn)).ne
    · exact (rne_pos (by exact_mod_cast hp)).ne'
  simp [totalPagesOf, F64.ofInt, F64.div, F64.ceil, F64.isPosInf, F64.isNaN, hps]

/-- The page count is exact for a count of at most `2 ^ 53` records. -/
theorem totalPagesOf_exact (ps tv : ℤ) (hps : 0 < ps) (htv : 0 ≤ tv) (htv2 : tv ≤ 2 ^ 53) :
    totalPagesOf ps tv = .fin (⌈(tv : ℚ) / ps⌉ : ℤ) := by
  rw [totalPagesOf_of_ne_zero ps tv hps.ne']
  have hpsq : (0 : ℚ) < ps := by exact_mod_cast hps
  have htvr : rne (tv : ℚ) = tv := rne_intCast_of_abs_le tv (by rw [abs_of_nonneg htv]; exact htv2)
  rw [htvr]
  rcases eq_or_lt_of_le htv with h0 | hpos
  · subst h0
    simp [rne]
  have htvq : (0 : ℚ) < tv := by exact_mod_cast hpos
  rcases le_or_lt ps (2 ^ 53) with hsmall | hbig
  · have hpsr : rne (ps : ℚ) = ps :=
      rne_intCast_of_abs_le ps (by rw [abs_of_pos hps]; exact hsmall)
    rw [hpsr, ceil_rne_div tv ps hpos htv2 hps]
  · -- the divisor exceeds every admitted count: one page on both sides
    have h53 : (2 : ℚ) ^ (53 : ℤ) ≤ ps := by
      have : ((2 ^ 53 : ℤ) : ℚ) ≤ ps := by exact_mod_cast hbig.le
      have e : (2 : ℚ) ^ (53 : ℤ) = ((2 ^ 53 : ℤ) : ℚ) := by norm_num
      rw [e]; exact this
    have hlog : (53 : ℤ) ≤ Int.log 2 (ps : ℚ) := by
      rw [← Int.zpow_le_iff_le_log (b := 2) (by norm_num) hpsq]
      simpa using h53
    have hr : (2 : ℚ) ^ (53 : ℤ) ≤ rne (ps : ℚ) :=
      le_trans (zpow_le_zpow_right₀ (by norm_num) hlog) (zpow_log_le_rne hpsq)
    have htv53 : (tv : ℚ) ≤ (2 : ℚ) ^ (53 : ℤ) := by
      have : (tv : ℚ) ≤ ((2 ^ 53 : ℤ) : ℚ) := by exact_mod_cast htv2
      have e : (2 : ℚ) ^ (53 : ℤ) = ((2 ^ 53 : ℤ) : ℚ) := by norm_num
      rw [e]; exact this
    have hrpos : (0 : ℚ) < rne (ps : ℚ) := lt_of_lt_of_le (two_zpow_pos _) hr
    have hq1 : (0 : ℚ) < (tv : ℚ) / rne (ps : ℚ) := div_pos htvq hrpos
    have hq2 : (tv : ℚ) / rne (ps : ℚ) ≤ (2 : ℚ) ^ (0 : ℤ) := by
      rw [zpow_zero, div_le_one hrpos]
      exact le_trans htv53 hr
    have hl : ⌈rne ((tv : ℚ) / rne (ps : ℚ))⌉ = 1 := by
      rw [Int.ceil_eq_iff]
      constructor
      · have := rne_pos hq1
        simpa using this
      · have := rne_le_zpow hq1 hq2
        simpa using this
    have hx : ⌈(tv : ℚ) / ps⌉ = 1 := by
      rw [Int.ceil_eq_iff]
      constructor
      · have := div_pos htvq hpsq
        simpa using this
      · have : (tv : ℚ) / ps ≤ 1 := by
          rw [div_le_one hpsq]
          exact le_trans htv53 h53
        simpa using this
    rw [hl, hx]

/-- The page count is zero or positive when neither argument is negative, and
when both are. -/
theorem totalPagesOf_nonneg (ps tv : ℤ) (h : (0 ≤ tv ∧ 0 ≤ ps) ∨ (tv < 0 ∧ ps < 0)) :
    ∃ z : ℚ, totalPagesOf ps tv = .fin z ∧ 0 ≤ z := by
  by_cases h0 : ps = 0
  · subst h0
    rcases h with ⟨htv, _⟩ | ⟨_, hps⟩
    · exact ⟨0, totalPagesOf_zero_size tv htv, le_rfl⟩
    · exact absurd hps (lt_irrefl 0)
  · refine ⟨_, totalPagesOf_of_ne_zero ps tv h0, ?_⟩
    have hquot : (0 : ℚ) ≤ rne (tv : ℚ) / rne (ps : ℚ) := by
      rcases h with ⟨htv, hps⟩ | ⟨htv, hps⟩
      · exact div_nonneg (rne_nonneg (by exact_mod_cast htv)) (rne_nonneg (by exact_mod_cast hps))
      · exact (div_pos_of_neg_of_neg (rne_neg_of_neg (by exact_mod_cast htv))
          (rne_neg_of_neg (by exact_mod_cast hps))).le
    have : (0 : ℤ) ≤ ⌈rne (rne (tv : ℚ) / rne (ps : ℚ))⌉ := Int.ceil_nonneg (rne_nonneg hquot)
    exact_mod_cast this

/-- On a payload with a length `GeneratePagination` returns its summary. -/
theorem GeneratePagination_of_len (L : GoLib) (pageNumber pageSize TotalVisible : ℤ)
    (CurrentParam : String) (Items : Payload) (n : ℕ) (hlen : Items.len = some n) :
    GeneratePagination L pageNumber pageSize TotalVisible CurrentParam Items = some {
      TotalPages := totalPagesOf pageSize TotalVisible
      TotalVisible := TotalVisible
      TotalRecordsFiltered := n
      Items := Items
      Page := pageNumber
      PrevPage := wrapInt64 (pageNumber - 1)
      NextPage := wrapInt64 (pageNumber + 1)
      PostsPerPage := pageSize
      CurrentParam := NormalizeParam (L.QueryUnescape CurrentParam)
      Paginates := Paginates (F64.toInt L (totalPagesOf pageSize TotalVisible))
      HasPages := HasPages (F64.toInt L (totalPagesOf pageSize TotalVisible))
      First := pageNumber == 1
      Last := decide (wrapInt64 (pageNumber * pageSize) ≥ TotalVisible)
      Additional := .nil
      Summary := .nil } := by
  simp only [GeneratePagination, hlen]

/-- C4 (amended): for a payload with a length and a count of records that is
not negative, `GeneratePagination` returns; its `TotalPages` is the exact
ceiling of the quotient when the page size is positive and the count is at
most `2 ^ 53`, and is zero when the page size is zero. -/
theorem C4_total_pages_exact (L : GoLib) (pageNumber pageSize TotalVisible : ℤ)
    (CurrentParam : String) (Items : Payload) (n : ℕ)
    (hlen : Items.len = some n) (htv : 0 ≤ TotalVisible) :
    ∃ m, GeneratePagination L pageNumber pageSize TotalVisible CurrentParam Items = some m ∧
      (0 < pageSize → TotalVisible ≤ 2 ^ 53 →
        m.TotalPages = .fin (⌈(TotalVisible : ℚ) / pageSize⌉ : ℤ)) ∧
      (pageSize = 0 → m.TotalPages = .fin 0) := by
  refine ⟨_, GeneratePagination_of_len L pageNumber pageSize TotalVisible CurrentParam Items n
    hlen, ?_, ?_⟩
  · intro hps h53
    exact totalPagesOf_exact pageSize TotalVisible hps htv h53
  · intro hps
    subst hps
    exact totalPagesOf_zero_size TotalVisible htv

/-- Ninety-five records in pages of ten make ten pages, an instance of
`C4_total_pages_exact` on the sample library. -/
theorem C4_total_pages_exact_witness :
    ∃ m, GeneratePagination sampleLib 1 10 95 "a=1" ⟨some 10⟩ = some m ∧
      m.TotalPages = .fin 10 := by
  obtain ⟨m, hm, hpos, _⟩ :=
    C4_total_pages_exact sampleLib 1 10 95 "a=1" ⟨some 10⟩ 10 rfl (by norm_num)
  refine ⟨m, hm, ?_⟩
  rw [hpos (by norm_num) (by norm_num)]
  have : ⌈((95 : ℤ) : ℚ) / ((10 : ℤ) : ℚ)⌉ = 10 := by
    rw [Int.ceil_eq_iff]
    norm_num
  rw [this]
  norm_num

/-- The conversion of `2 ^ 53 + 1` to `float64` gives `2 ^ 53`. -/
theorem rne_two_pow_53_add_one : rne ((2 : ℚ) ^ 53 + 1) = (2 : ℚ) ^ 53 := by
  have hlog : Int.log 2 |(2 : ℚ) ^ 53 + 1| = 53 := by
    rw [abs_of_pos (by norm_num)]
    apply log_eq_of_bounds <;> norm_num
  have hfloor : ⌊((2 : ℚ) ^ 53 + 1) / 2⌋ = 2 ^ 52 := by
    rw [Int.floor_eq_iff]
    norm_num
  rw [rne_of_ne_zero (by norm_num), hlog]
  have he : ((53 : ℤ) - 52) = 1 := by norm_num
  rw [he, zpow_one]
  have hr : roundHalfEven (((2 : ℚ) ^ 53 + 1) / 2) = 2 ^ 52 := by
    unfold roundHalfEven
    rw [hfloor]
    norm_num
  rw [hr]
  norm_num

/-- The page count for `2 ^ 53 + 1` records in pages of `2 ^ 53` is one: the
count is converted to `2 ^ 53` and the quotient is exactly one. -/
theorem totalPagesOf_two_pow_53_size :
    totalPagesOf (2 ^ 53) (2 ^ 53 + 1) = .fin ((1 : ℤ) : ℚ) := by
  rw [totalPagesOf_of_ne_zero (2 ^ 53) (2 ^ 53 + 1) (by norm_num)]
  have h1 : rne (((2 ^ 53 : ℤ) : ℚ)) = (2 : ℚ) ^ 53 := by
    have e : (((2 ^ 53 : ℤ) : ℚ)) = (2 : ℚ) ^ (53 : ℤ) := by norm_num
    rw [e, rne_zpow]
    norm_cast
  have h2 : rne (((2 ^ 53 + 1 : ℤ) : ℚ)) = (2 : ℚ) ^ 53 := by
    have e : (((2 ^ 53 + 1 : ℤ) : ℚ)) = (2 : ℚ) ^ 53 + 1 := by norm_num
    rw [e]
    exact rne_two_pow_53_add_one
  rw [h1, h2, div_self (by norm_num)]
  have h3 : rne (1 : ℚ) = 1 := by
    simpa using rne_intCast_of_abs_le 1 (by norm_num)
  rw [h3]
  simp

/-- C4 (as stated) fails: with `2 ^ 53 + 1` records in pages of `2 ^ 53` the
returned page count is one, while the exact quotient rounded up is two; and a
payload without a length makes the function panic. -/
theorem C4_counterexample :
    (∃ m, GeneratePagination sampleLib 1 (2 ^ 53) (2 ^ 53 + 1) "" ⟨some 0⟩ = some m ∧
      m.TotalPages = .fin 1 ∧
      ⌈(((2 ^ 53 + 1 : ℤ) : ℚ)) / ((2 ^ 53 : ℤ) : ℚ)⌉ = 2 ∧
      m.TotalPages ≠ .fin (⌈(((2 ^ 53 + 1 : ℤ) : ℚ)) / ((2 ^ 53 : ℤ) : ℚ)⌉ : ℤ)) ∧
    GeneratePagination sampleLib 1 10 95 "" ⟨none⟩ = none := by
  have hceil : ⌈(((2 ^ 53 + 1 : ℤ) : ℚ)) / ((2 ^ 53 : ℤ) : ℚ)⌉ = 2 := by
    rw [Int.ceil_eq_iff]
    norm_num
  refine ⟨⟨_, GeneratePagination_of_len sampleLib 1 (2 ^ 53) (2 ^ 53 + 1) "" ⟨some 0⟩ 0 rfl,
    ?_, hceil, ?_⟩, rfl⟩
  · show totalPagesOf (2 ^ 53) (2 ^ 53 + 1) = _
    rw [totalPagesOf_two_pow_53_size]
    norm_num
  · show totalPagesOf (2 ^ 53) (2 ^ 53 + 1) ≠ _
    rw [totalPagesOf_two_pow_53_size, hceil]
    intro h
    injection h with h
    norm_num at h

/-- C5 (amended): for a payload with a length, and a page size and a count of
records that are both not negative or both negative, `GeneratePagination`
returns a `TotalPages` that is finite and not negative; with a page size of
zero the undefined quotient (positive infinity or not-a-number) is replaced
by zero. -/
theorem C5_total_pages_finite_nonneg (L : GoLib) (pageNumber pageSize TotalVisible : ℤ)
    (CurrentParam : String) (Items : Payload) (n : ℕ)
    (hlen : Items.len = some n)
    (hsign : (0 ≤ TotalVisible ∧ 0 ≤ pageSize) ∨ (TotalVisible < 0 ∧ pageSize < 0)) :
    ∃ m z, GeneratePagination L pageNumber pageSize TotalVisible CurrentParam Items = some m ∧
      m.TotalPages = .fin z ∧ 0 ≤ z ∧ (pageSize = 0 → z = 0) := by
  by_cases h0 : pageSize = 0
  · subst h0
    have htv : 0 ≤ TotalVisible := by
      rcases hsign with ⟨h, _⟩ | ⟨_, h⟩
      · exact h
      · exact absurd h (lt_irrefl 0)
    exact ⟨_, 0, GeneratePagination_of_len L pageNumber 0 TotalVisible CurrentParam Items n hlen,
      totalPagesOf_zero_size TotalVisible htv, le_rfl, fun _ => rfl⟩
  · obtain ⟨z, hz, hz0⟩ := totalPagesOf_nonneg pageSize TotalVisible hsign
    exact ⟨_, z,
      GeneratePagination_of_len L pageNumber pageSize TotalVisible CurrentParam Items n hlen,
      hz, hz0, fun h => absurd h h0⟩

/-- Seven records with a page size of zero: the summary is returned with a
finite page count that is not negative, an instance of
`C5_total_pages_finite_nonneg` on the sample library. -/
theorem C5_total_pages_finite_nonneg_witness :
    ∃ m z, GeneratePagination sampleLib 3 0 7 "" ⟨some 2⟩ = some m ∧
      m.TotalPages = .fin z ∧ 0 ≤ z ∧ ((0 : ℤ) = 0 → z = 0) :=
  C5_total_pages_finite_nonneg sampleLib 3 0 7 "" ⟨some 2⟩ 2 rfl
    (Or.inl ⟨by norm_num, le_rfl⟩)

/-- C5 (as stated) fails: a count of minus five records in pages of one gives
the negative page count minus five. -/
theorem C5_counterexample :
    ∃ m, GeneratePagination sampleLib 1 1 (-5) "" ⟨some 0⟩ = some m ∧
      m.TotalPages = .fin (-5) ∧ ¬ ((0 : ℚ) ≤ -5) := by
  refine ⟨_, GeneratePagination_of_len sampleLib 1 1 (-5) "" ⟨some 0⟩ 0 rfl, ?_, by norm_num⟩
  show totalPagesOf 1 (-5) = _
  rw [totalPagesOf_of_ne_zero 1 (-5) (by norm_num)]
  have h1 : rne (((1 : ℤ) : ℚ)) = 1 := by
    simpa using rne_intCast_of_abs_le 1 (by norm_num)
  have h2 : rne (((-5 : ℤ) : ℚ)) = -5 := by
    simpa using rne_intCast_of_abs_le (-5) (by norm_num)
  rw [h1, h2, div_one]
  have h3 : rne (-5 : ℚ) = -5 := by
    simpa using rne_intCast_of_abs_le (-5) (by norm_num)
  rw [h3]
  have : ⌈(-5 : ℚ)⌉ = -5 := by
    rw [Int.ceil_eq_iff]
    norm_num
  rw [this]
  norm_num

/-- C6 (amended): a top-level list `[f, v]` with a text `f` is parsed into one
filter, of kind single, with the normalised field in double quotes, the
operator `=`, the tag of `v`, and the value `v`, except that a JSON object
(a map) leaves the value unset. -/
theorem C6_pair_is_single (L : GoLib) (s f : String) (v : GoVal)
    (hdec : L.Unmarshal s = some (.arr [.str f, v])) :
    ∃ item, CreateFilter L s = some [{ Item := item, Typ := "single" }] ∧
      item.Field = "\"" ++ NormalizeFieldName L f ++ "\"" ∧
      item.Operator = "=" ∧
      item.ValueType = v.tag ∧
      item.Value = (if v.isMap then .nil else v) := by
  refine ⟨SetFilterValue { Field := "\"" ++ NormalizeFieldName L f ++ "\"", Operator := "=" } v,
    ?_, ?_, ?_, ?_, ?_⟩
  · simp [CreateFilter, hdec, filtersOfValue, outerLoop, outerStep, singleStep]
  · exact SetFilterValue_Field _ _
  · exact SetFilterValue_Operator _ _
  · cases v <;> rfl
  · cases v <;> rfl

/-- The documented pair of a field and the number 30, an instance of
`C6_pair_is_single` on the sample library. -/
theorem C6_pair_is_single_witness :
    ∃ item, CreateFilter sampleLib "[\"age\", 30]" = some [{ Item := item, Typ := "single" }] ∧
      item.Field = "\"age\"" ∧
      item.Operator = "=" ∧
      item.ValueType = "float64" ∧
      item.Value = .float64 (.fin 30) :=
  C6_pair_is_single sampleLib "[\"age\", 30]" "age" (.float64 (.fin 30)) rfl

/-- C6 (as stated) fails: with a JSON object in the value position the filter
carries no value. -/
theorem C6_counterexample :
    sampleLib.Unmarshal "[\"age\", \x7b\"min\": 1\x7d]" =
      some (.arr [.str "age", .map [("min", .float64 (.fin 1))]]) ∧
    ∃ item, CreateFilter sampleLib "[\"age\", \x7b\"min\": 1\x7d]" =
        some [{ Item := item, Typ := "single" }] ∧
      item.Value = .nil ∧ item.ValueType = "" ∧
      item.Value ≠ .map [("min", .float64 (.fin 1))] :=
  ⟨rfl, ⟨"\"age\"", "=", .nil, ""⟩, rfl, rfl, rfl, by simp⟩

/-- C7: for an item with operator `LIKE` or `NOT LIKE` and a text value `s`,
`CreateWhereCause` appends the one fragment `field LIKE ?` (`field NOT LIKE ?`)
and binds the one parameter `%s%` in which every space has become `%`. -/
theorem C7_like_binds_pattern (L : GoLib) (f : QueryFilter) (s : String) (qf : List String)
    (wp : List GoVal)
    (hop : f.Item.Operator = "LIKE" ∨ f.Item.Operator = "NOT LIKE")
    (hv : f.Item.Value = .str s) (ht : f.Item.ValueType = "string") :
    CreateWhereCause L f qf wp =
      some (qf ++ [f.Item.Field ++ " " ++ f.Item.Operator ++ " ?"],
        wp ++ [.str (String.mk (("%" ++ s ++ "%").data.map
          (fun c => if c = ' ' then '%' else c)))]) := by
  have hne : "%" ++ s ++ "%" ≠ "" := by
    intro h
    have := congrArg String.length h
    simp at this
    exact absurd this.1.1 (by decide)
  have hnot : ¬ ((f.Item.Operator = "IS" ∨ f.Item.Operator = "IS NOT") ∧
      f.Item.Value.isNil = true) := by
    rw [hv]; simp [GoVal.isNil]
  rw [CreateWhereCause, if_neg hnot, if_pos hop]
  simp only [likeValue, ht, hv, if_true]
  rw [if_pos hne, ReplaceAll_space]

/-- The documented value `foo bar` under `LIKE`, an instance of
`C7_like_binds_pattern`. -/
theorem C7_like_binds_pattern_witness :
    CreateWhereCause sampleLib ⟨⟨"\"name\"", "LIKE", .str "foo bar", "string"⟩, "single"⟩ [] [] =
      some (["\"name\" LIKE ?"], [.str "%foo%bar%"]) :=
  C7_like_binds_pattern sampleLib ⟨⟨"\"name\"", "LIKE", .str "foo bar", "string"⟩, "single"⟩
    "foo bar" [] [] (Or.inl rfl) rfl rfl

/-- C8: for an item with operator `IN` or `NOT IN` whose value is a list of
texts, `CreateWhereCause` binds one parameter, the list of the lower-cased
texts in the same order. -/
theorem C8_in_binds_lowercased_list (L : GoLib) (f : QueryFilter) (ss : List String)
    (qf : List String) (wp : List GoVal)
    (hop : f.Item.Operator = "IN" ∨ f.Item.Operator = "NOT IN")
    (hv : f.Item.Value = .arr (ss.map GoVal.str)) (ht : f.Item.ValueType = "array") :
    CreateWhereCause L f qf wp =
      some (qf ++ [f.Item.Field ++ " " ++ f.Item.Operator ++ " ?"],
        wp ++ [.arr (ss.map (fun s => GoVal.str (L.ToLower s)))]) := by
  have hnot : ¬ ((f.Item.Operator = "IS" ∨ f.Item.Operator = "IS NOT") ∧
      f.Item.Value.isNil = true) := by
    rw [hv]; simp [GoVal.isNil]
  have hlike : ¬ (f.Item.Operator = "LIKE" ∨ f.Item.Operator = "NOT LIKE") := by
    rcases hop with h | h <;> rw [h] <;> decide
  rw [CreateWhereCause, if_neg hnot, if_neg hlike, if_pos hop, if_pos ht, hv]
  simp [listEntry, Function.comp_def]

/-- The documented list of `A` and `b` under `IN`, an instance of
`C8_in_binds_lowercased_list` on the sample library. -/
theorem C8_in_binds_lowercased_list_witness :
    CreateWhereCause sampleLib
        ⟨⟨"\"tag\"", "IN", .arr [.str "A", .str "b"], "array"⟩, "single"⟩ [] [] =
      some (["\"tag\" IN ?"], [.arr [.str "a", .str "b"]]) :=
  C8_in_binds_lowercased_list sampleLib
    ⟨⟨"\"tag\"", "IN", .arr [.str "A", .str "b"], "array"⟩, "single"⟩ ["A", "b"] [] []
    (Or.inl rfl) rfl rfl

/-- An entry that is not a text is bound as the empty text by the `IN` and
`BETWEEN` loops. -/
theorem listEntry_non_text (L : GoLib) (v : GoVal) (h : ∀ s, v ≠ .str s) :
    listEntry L v = .str "" := by
  cases v <;> first | exact absurd rfl (h _) | rfl

/-- C9 (code at the failing input): the documented filter on the numbers 20
and 21 under `NOT IN` binds a list of two empty texts, not the texts `20`
and `21`. -/
theorem C9_in_numbers_bind_empty_text :
    sampleLib.Unmarshal "[\"age\", \"not in\", [20,21]]" =
      some (.arr [.str "age", .str "not in", .arr [.float64 (.fin 20), .float64 (.fin 21)]]) ∧
    CreateCustomFilters sampleLib "[\"age\", \"not in\", [20,21]]" "" "" "" =
      some {
        ResultFilters := "age NOT IN ?"
        whereFilters := [.arr [.str "", .str ""]]
        ResultSearch := ""
        whereSearch := []
        orderBy := "id desc" } ∧
    fmtV sampleLib (.float64 (.fin 20)) = "20" ∧
    (GoVal.arr [.str "", .str ""] ≠ .arr [.str "20", .str "21"]) :=
  ⟨rfl, rfl, rfl, by simp⟩

/-- What the `IN` and `BETWEEN` loops bind for a list entry, written out: the
lower-cased text for a text, the empty text for anything else. -/
theorem listEntry_eq (L : GoLib) (v : GoVal) :
    listEntry L v = (match v with
      | .str s => GoVal.str (L.ToLower s)
      | _ => GoVal.str "") := by
  cases v <;> rfl

/-- For an item with operator `BETWEEN` whose value is a list,
`CreateWhereCause` appends the fragment `field BETWEEN ? AND ?`; for a list of
two elements it binds two parameters, a text element as its lower-cased text
and any other element as the empty text, and for any other length it binds
nothing. -/
theorem CreateWhereCause_between (L : GoLib) (f : QueryFilter) (l : List GoVal)
    (qf : List String) (wp : List GoVal)
    (hop : f.Item.Operator = "BETWEEN")
    (hv : f.Item.Value = .arr l) (ht : f.Item.ValueType = "array") :
    CreateWhereCause L f qf wp =
      some (qf ++ [f.Item.Field ++ " " ++ "BETWEEN" ++ " ? AND ?"],
        wp ++ (if l.length = 2 then
          l.map (fun v => match v with
            | .str s => GoVal.str (L.ToLower s)
            | _ => GoVal.str "")
          else [])) := by
  have hnot : ¬ ((f.Item.Operator = "IS" ∨ f.Item.Operator = "IS NOT") ∧
      f.Item.Value.isNil = true) := by
    rw [hv]; simp [GoVal.isNil]
  have hlike : ¬ (f.Item.Operator = "LIKE" ∨ f.Item.Operator = "NOT LIKE") := by
    rw [hop]; decide
  have hin : ¬ (f.Item.Operator = "IN" ∨ f.Item.Operator = "NOT IN") := by
    rw [hop]; decide
  rw [CreateWhereCause, if_neg hnot, if_neg hlike, if_neg hin, if_pos hop, if_pos ht, hv, hop]
  match l with
  | [] => simp
  | [_] => simp
  | [a, b] => simp [listEntry_eq]
  | _ :: _ :: _ :: _ => simp

/-- C10 (code at the failing input): the filter on the numbers 18 and 30 under
`BETWEEN` gets its fragment with two placeholders and binds two empty texts,
not the texts `18` and `30`; with three numbers it gets the same fragment and
binds nothing. -/
theorem C10_between_numbers_bind_empty_text :
    sampleLib.Unmarshal "[\"age\", \"between\", [18,30]]" =
      some (.arr [.str "age", .str "between", .arr [.float64 (.fin 18), .float64 (.fin 30)]]) ∧
    CreateCustomFilters sampleLib "[\"age\", \"between\", [18,30]]" "" "" "" =
      some {
        ResultFilters := "age BETWEEN ? AND ?"
        whereFilters := [.str "", .str ""]
        ResultSearch := ""
        whereSearch := []
        orderBy := "id desc" } ∧
    fmtV sampleLib (.float64 (.fin 18)) = "18" ∧
    fmtV sampleLib (.float64 (.fin 30)) = "30" ∧
    ([GoVal.str "", GoVal.str ""] ≠ [GoVal.str "18", GoVal.str "30"]) ∧
    CreateCustomFilters sampleLib "[\"age\", \"between\", [18,30,40]]" "" "" "" =
      some {
        ResultFilters := "age BETWEEN ? AND ?"
        whereFilters := []
        ResultSearch := ""
        whereSearch := []
        orderBy := "id desc" } :=
  ⟨rfl, rfl, rfl, rfl, by simp, rfl⟩

/-! ## Malformed input, field names, page numbers -/

/-- C11: a text that is not valid JSON gives the empty filter list, and as a
filter expression it gives empty predicate text and no filter parameter. -/
theorem C11_malformed_json_no_filter (L : GoLib) (s pageSearch columnFilter pageSort : String)
    (sr : String × List GoVal)
    (hdec : L.Unmarshal s = none)
    (hsearch : searchPart L pageSearch columnFilter = some sr) :
    CreateFilter L s = some [] ∧
    CreateCustomFilters L s pageSearch columnFilter pageSort = some {
      ResultFilters := ""
      whereFilters := []
      ResultSearch := sr.1
      whereSearch := sr.2
      orderBy := sortPart L pageSort } := by
  have hcf : CreateFilter L s = some [] := by simp [CreateFilter, hdec]
  refine ⟨hcf, ?_⟩
  have hempty : ReplaceAll "" "\"" "" = "" := by decide
  by_cases hs : "" = s
  · simp [CreateCustomFilters, hsearch, filterPart, hs.symm, hempty]
  · simp [CreateCustomFilters, hsearch, filterPart, hs, hcf, hempty]

/-- An unterminated list, an instance of `C11_malformed_json_no_filter` on the
sample library. -/
theorem C11_malformed_json_no_filter_witness :
    CreateFilter sampleLib "[[\"age\", \">\", 18" = some [] ∧
    CreateCustomFilters sampleLib "[[\"age\", \">\", 18" "" "" "" = some {
      ResultFilters := ""
      whereFilters := []
      ResultSearch := ""
      whereSearch := []
      orderBy := "id desc" } :=
  C11_malformed_json_no_filter sampleLib "[[\"age\", \">\", 18" "" "" "" ("", []) rfl rfl

theorem splitOnChar_ne_nil (sep : Char) (l : List Char) : splitOnChar sep l ≠ [] := by
  cases l with
  | nil => simp [splitOnChar]
  | cons c cs =>
    simp only [splitOnChar]
    split_ifs
    · simp
    · split <;> simp

/-- No piece of a split holds the separator. -/
theorem splitOnChar_no_sep (sep : Char) (l : List Char) :
    ∀ p ∈ splitOnChar sep l, sep ∉ p := by
  induction l with
  | nil => simp [splitOnChar]
  | cons c cs ih =>
    intro p hp
    simp only [splitOnChar] at hp
    split_ifs at hp with hc
    · rcases List.mem_cons.mp hp with h | h
      · simp [h]
      · exact ih p h
    · split at hp
      · simp at hp
        simp [hp, Ne.symm hc]
      · rename_i h t heq
        rw [heq] at ih
        rcases List.mem_cons.mp hp with h1 | h1
        · rw [h1]
          have := ih h (by simp)
          simp [Ne.symm hc, this]
        · exact ih p (by simp [h1])

/-- The pieces of a split, joined by the separator, give the text back. -/
theorem join_splitOnChar (sep : Char) (l : List Char) :
    Join ((splitOnChar sep l).map String.mk) (String.mk [sep]) = String.mk l := by
  induction l with
  | nil => rfl
  | cons c cs ih =>
    simp only [splitOnChar]
    split_ifs with hc
    · subst hc
      cases hrec : splitOnChar c cs with
      | nil => exact absurd hrec (splitOnChar_ne_nil c cs)
      | cons h t =>
        rw [hrec] at ih
        simp only [List.map_cons, Join] at ih ⊢
        rw [ih]
        rfl
    · cases hrec : splitOnChar sep cs with
      | nil => exact absurd hrec (splitOnChar_ne_nil sep cs)
      | cons h t =>
        rw [hrec] at ih
        cases t with
        | nil =>
          simp only [List.map_cons, List.map_nil, Join] at ih ⊢
          have e : h = cs := by simpa using congrArg String.data ih
          rw [e]
        | cons t1 t2 =>
          simp only [List.map_cons, Join] at ih ⊢
          have e := congrArg String.data ih
          apply String.ext
          simp only [String.data_append] at e ⊢
          rw [← e]
          simp

/-- A text with the separator splits into at least two pieces. -/
theorem splitOnChar_of_mem (sep : Char) (l : List Char) (h : sep ∈ l) :
    ∃ first rest, rest ≠ [] ∧ splitOnChar sep l = first :: rest := by
  induction l with
  | nil => simp at h
  | cons c cs ih =>
    simp only [splitOnChar]
    split_ifs with hc
    · exact ⟨[], splitOnChar sep cs, splitOnChar_ne_nil sep cs, rfl⟩
    · have hcs : sep ∈ cs := by
        rcases List.mem_cons.mp h with h1 | h1
        · exact absurd h1.symm hc
        · exact h1
      obtain ⟨first, rest, hrest, heq⟩ := ih hcs
      rw [heq]
      exact ⟨c :: first, rest, hrest, rfl⟩

/-- C12 (amended): a field reference with a comma is cut at its commas into a
first segment and at least one more; `NormalizeFieldName` returns the first
segment as `strcase.ToCamel` converts it, then every later segment as it is,
all joined with two underscores. -/
theorem C12_normalize_segments (L : GoLib) (field : String) (h : ',' ∈ field.data) :
    ∃ first rest, rest ≠ [] ∧
      Join (first :: rest) "," = field ∧
      (∀ p ∈ first :: rest, ',' ∉ p.data) ∧
      NormalizeFieldName L field = Join (L.ToCamel first :: rest) "__" := by
  obtain ⟨first, rest, hrest, heq⟩ := splitOnChar_of_mem ',' field.data h
  refine ⟨String.mk first, rest.map String.mk, by simpa using hrest, ?_, ?_, ?_⟩
  · have := join_splitOnChar ',' field.data
    rw [heq] at this
    exact this
  · intro p hp
    have hp2 : p ∈ (splitOnChar ',' field.data).map String.mk := by
      rw [heq]; exact hp
    obtain ⟨q, hq, rfl⟩ := List.mem_map.mp hp2
    exact splitOnChar_no_sep ',' field.data q hq
  · cases rest with
    | nil => exact absurd rfl hrest
    | cons r rs => simp [NormalizeFieldName, Split, heq]

/-- The documented reference, an instance of `C12_normalize_segments` on the
sample library: the first segment comes out with a capital initial. -/
theorem C12_normalize_segments_witness :
    ∃ first rest, rest ≠ [] ∧
      Join (first :: rest) "," = "first_name,related.status" ∧
      (∀ p ∈ first :: rest, ',' ∉ p.data) ∧
      NormalizeFieldName sampleLib "first_name,related.status" =
        Join (sampleLib.ToCamel first :: rest) "__" :=
  C12_normalize_segments sampleLib "first_name,related.status" (by decide)

/-- C12 (as stated) fails: the documented reference is normalised to
`FirstName__related.status`, with a capital initial, not to
`firstName__related.status`. -/
theorem C12_counterexample :
    NormalizeFieldName sampleLib "first_name,related.status" = "FirstName__related.status" ∧
    NormalizeFieldName sampleLib "first_name,related.status" ≠ "firstName__related.status" := by
  decide

/-- With enough fuel the loop of `Paginates` appends the numbers from `i + 1`
up to `totalPages`. -/
theorem paginatesLoop_eq (n : ℤ) :
    ∀ (fuel : ℕ) (i : ℤ) (acc : List ℤ), (n - i).toNat ≤ fuel →
      paginatesLoop n fuel i acc =
        acc ++ (List.range (n - i).toNat).map (fun k : ℕ => i + (k : ℤ) + 1) := by
  intro fuel
  induction fuel with
  | zero =>
    intro i acc h
    have h0 : (n - i).toNat = 0 := by omega
    simp [paginatesLoop, h0]
  | succ fuel ih =>
    intro i acc h
    simp only [paginatesLoop]
    split_ifs with hlt
    · obtain ⟨m, hm⟩ : ∃ m : ℕ, (n - i).toNat = m + 1 := ⟨(n - i).toNat - 1, by omega⟩
      have hm2 : (n - (i + 1)).toNat = m := by omega
      rw [ih (i + 1) (acc ++ [i + 1]) (by omega), hm, hm2, List.range_succ_eq_map]
      simp only [List.map_cons, List.map_map, List.append_assoc, List.singleton_append]
      congr 2
      · simp
      · apply List.map_congr_left
        intro k _
        simp only [Function.comp, Nat.succ_eq_add_one]
        push_cast
        ring
    · have h0 : (n - i).toNat = 0 := by omega
      simp [h0]

theorem Paginates_eq_range (n : ℤ) :
    Paginates n = (List.range n.toNat).map (fun k : ℕ => (k : ℤ) + 1) := by
  have := paginatesLoop_eq n n.toNat 0 [] (by simp)
  simpa [Paginates] using this

/-- C13: `Paginates n` has `n` elements, the element at index `i` being
`i + 1`, when `n` is at least one, and is empty when `n` is zero or
negative. -/
theorem C13_paginates_sequence (n : ℤ) :
    (Paginates n).length = n.toNat ∧
    (∀ i : ℕ, i < n.toNat → (Paginates n)[i]? = some ((i : ℤ) + 1)) ∧
    (n ≤ 0 → Paginates n = []) := by
  rw [Paginates_eq_range]
  refine ⟨by simp, ?_, ?_⟩
  · intro i hi
    simp [List.getElem?_map, List.getElem?_range hi]
  · intro hn
    have : n.toNat = 0 := by omega
    simp [this]

/-- Three pages and no page, instances of `C13_paginates_sequence`. -/
theorem C13_paginates_sequence_witness :
    (Paginates 3).length = 3 ∧ (Paginates 3)[0]? = some 1 ∧ (Paginates 3)[2]? = some 3 ∧
      Paginates (-4) = [] :=
  ⟨(C13_paginates_sequence 3).1, (C13_paginates_sequence 3).2.1 0 (by decide),
    (C13_paginates_sequence 3).2.1 2 (by decide), (C13_paginates_sequence (-4)).2.2 (by decide)⟩

/-! ## Page flags -/

theorem wrapInt64_of_inInt64 (n : ℤ) (h : InInt64 n) : wrapInt64 n = n := by
  obtain ⟨h1, h2⟩ := h
  unfold wrapInt64
  rw [Int.emod_eq_of_lt (by omega) (by omega)]
  omega

/-- Inside the range of `int` the conversion of an integral `float64` is the
integer itself. -/
theorem toInt_intCast (L : GoLib) (z : ℤ) (h1 : -(2 : ℤ) ^ 63 ≤ z) (h2 : z < 2 ^ 63) :
    F64.toInt L (.fin (z : ℚ)) = z := by
  simp only [F64.toInt, Int.floor_intCast, Int.ceil_intCast, ite_self]
  rw [if_pos ⟨h1, h2⟩]

/-- With a positive page size and a count that is not negative the page count
is an integer that is not negative. -/
theorem totalPagesOf_int (ps tv : ℤ) (hps : 0 < ps) (htv : 0 ≤ tv) :
    ∃ z : ℤ, totalPagesOf ps tv = .fin (z : ℚ) ∧ 0 ≤ z ∧ (tv ≤ 2 ^ 53 → z = ⌈(tv : ℚ) / ps⌉) := by
  refine ⟨⌈rne (rne (tv : ℚ) / rne (ps : ℚ))⌉, totalPagesOf_of_ne_zero ps tv hps.ne', ?_, ?_⟩
  · exact Int.ceil_nonneg (rne_nonneg (div_nonneg (rne_nonneg (by exact_mod_cast htv))
      (rne_nonneg (by exact_mod_cast hps.le))))
  · intro h53
    have h1 := totalPagesOf_of_ne_zero ps tv hps.ne'
    have h2 := totalPagesOf_exact ps tv hps htv h53
    rw [h1] at h2
    injection h2 with h2
    exact_mod_cast h2

theorem HasPages_iff (k : ℤ) : HasPages k = true ↔ 1 < k := by
  unfold HasPages
  split_ifs with h
  · simp; omega
  · simp; omega

/-- C14 (amended): with a positive page size and a count of records that is
not negative, `TotalPages` is an integer `z`, and whenever `z` is below
`2 ^ 63` (as it is for every count up to `2 ^ 53`) the flag `HasPages` is
true exactly when `z` exceeds one; and `HasPages k` is true exactly when `k`
exceeds one. -/
theorem C14_has_pages_iff (L : GoLib) (pageNumber pageSize TotalVisible : ℤ)
    (CurrentParam : String) (Items : Payload) (n : ℕ)
    (hlen : Items.len = some n) (hps : 0 < pageSize) (htv : 0 ≤ TotalVisible) :
    (∃ m, ∃ z : ℤ,
      GeneratePagination L pageNumber pageSize TotalVisible CurrentParam Items = some m ∧
      m.TotalPages = .fin (z : ℚ) ∧
      (z < 2 ^ 63 → (m.HasPages = true ↔ 1 < z)) ∧
      (TotalVisible ≤ 2 ^ 53 → z < 2 ^ 63)) ∧
    ∀ k : ℤ, HasPages k = true ↔ 1 < k := by
  refine ⟨?_, HasPages_iff⟩
  obtain ⟨z, hz, hz0, hzex⟩ := totalPagesOf_int pageSize TotalVisible hps htv
  refine ⟨_, z, GeneratePagination_of_len L pageNumber pageSize TotalVisible CurrentParam Items n
    hlen, hz, ?_, ?_⟩
  · intro hlt
    show HasPages (F64.toInt L (totalPagesOf pageSize TotalVisible)) = true ↔ 1 < z
    rw [hz, toInt_intCast L z (by omega) hlt]
    exact HasPages_iff z
  · intro h53
    rw [hzex h53]
    have hle : (TotalVisible : ℚ) / pageSize ≤ ((2 ^ 53 : ℤ) : ℚ) := by
      have h1 : (1 : ℚ) ≤ pageSize := by exact_mod_cast hps
      have h2 : (0 : ℚ) ≤ TotalVisible := by exact_mod_cast htv
      have h3 : (TotalVisible : ℚ) ≤ ((2 ^ 53 : ℤ) : ℚ) := by exact_mod_cast h53
      exact le_trans (div_le_self h2 h1) h3
    have := Int.ceil_le.mpr hle
    omega

/-- Ninety-five records in pages of ten have more than one page, five have
not; instances of `C14_has_pages_iff` on the sample library. -/
theorem C14_has_pages_iff_witness :
    (∃ m, ∃ z : ℤ, GeneratePagination sampleLib 1 10 95 "" ⟨some 10⟩ = some m ∧
      m.TotalPages = .fin (z : ℚ) ∧
      (z < 2 ^ 63 → (m.HasPages = true ↔ 1 < z)) ∧
      ((95 : ℤ) ≤ 2 ^ 53 → z < 2 ^ 63)) ∧
    ∀ k : ℤ, HasPages k = true ↔ 1 < k :=
  C14_has_pages_iff sampleLib 1 10 95 "" ⟨some 10⟩ 10 rfl (by norm_num) (by norm_num)

/-- The conversion of `2 ^ 63 - 1`, the largest `int`, to `float64` gives
`2 ^ 63`. -/
theorem rne_two_pow_63_sub_one : rne ((2 : ℚ) ^ 63 - 1) = (2 : ℚ) ^ 63 := by
  have hlog : Int.log 2 |(2 : ℚ) ^ 63 - 1| = 62 := by
    rw [abs_of_pos (by norm_num)]
    apply log_eq_of_bounds <;> norm_num
  have hfloor : ⌊((2 : ℚ) ^ 63 - 1) / 2 ^ (10 : ℤ)⌋ = 2 ^ 53 - 1 := by
    rw [Int.floor_eq_iff]
    norm_num
  rw [rne_of_ne_zero (by norm_num), hlog]
  have he : ((62 : ℤ) - 52) = 10 := by norm_num
  rw [he]
  have hr : roundHalfEven (((2 : ℚ) ^ 63 - 1) / 2 ^ (10 : ℤ)) = 2 ^ 53 := by
    unfold roundHalfEven
    rw [hfloor]
    norm_num
  rw [hr]
  norm_num

/-- The page count for the largest `int` in pages of one is `2 ^ 63`. -/
theorem totalPagesOf_one_max : totalPagesOf 1 (2 ^ 63 - 1) = .fin (((2 : ℤ) ^ 63 : ℤ) : ℚ) := by
  rw [totalPagesOf_of_ne_zero 1 (2 ^ 63 - 1) (by norm_num)]
  have h1 : rne (((1 : ℤ) : ℚ)) = 1 := by
    simpa using rne_intCast_of_abs_le 1 (by norm_num)
  have h2 : rne (((2 ^ 63 - 1 : ℤ) : ℚ)) = (2 : ℚ) ^ 63 := by
    have e : (((2 ^ 63 - 1 : ℤ) : ℚ)) = (2 : ℚ) ^ 63 - 1 := by norm_num
    rw [e]
    exact rne_two_pow_63_sub_one
  rw [h1, h2, div_one]
  have h3 : rne ((2 : ℚ) ^ 63) = (2 : ℚ) ^ 63 := by
    have e : (2 : ℚ) ^ 63 = (2 : ℚ) ^ (63 : ℤ) := by norm_cast
    rw [e]
    exact rne_zpow 63
  rw [h3]
  have : ⌈(2 : ℚ) ^ 63⌉ = 2 ^ 63 := by
    rw [Int.ceil_eq_iff]
    norm_num
  rw [this]

/-- C14 (as stated) fails: for the largest `int` as count, in pages of one,
the page count is `2 ^ 63`, far above one, while on a platform that converts
an out-of-range `float64` to the least `int` the flag `HasPages` is false. -/
theorem C14_counterexample :
    InInt64 (2 ^ 63 - 1) ∧
    ∃ m, GeneratePagination sampleLib 1 1 (2 ^ 63 - 1) "" ⟨some 0⟩ = some m ∧
      m.TotalPages = .fin (((2 : ℤ) ^ 63 : ℤ) : ℚ) ∧ (1 : ℤ) < 2 ^ 63 ∧ m.HasPages = false := by
  refine ⟨⟨by norm_num, by norm_num⟩, _,
    GeneratePagination_of_len sampleLib 1 1 (2 ^ 63 - 1) "" ⟨some 0⟩ 0 rfl,
    totalPagesOf_one_max, by norm_num, ?_⟩
  show HasPages (F64.toInt sampleLib (totalPagesOf 1 (2 ^ 63 - 1))) = false
  rw [totalPagesOf_one_max]
  simp only [F64.toInt, Int.floor_intCast, Int.ceil_intCast, ite_self]
  rw [if_neg (by norm_num)]
  simp [sampleLib, HasPages]

/-- C20 (amended): with a positive page size, a count of records from zero to
`2 ^ 53` and a product of page number and page size inside the range of
`int`, the flag `Last` is true exactly when the page number is at least the
returned `TotalPages`. -/
theorem C20_last_iff_page_reaches_total (L : GoLib) (pageNumber pageSize TotalVisible : ℤ)
    (CurrentParam : String) (Items : Payload) (n : ℕ)
    (hlen : Items.len = some n) (hps : 0 < pageSize) (htv : 0 ≤ TotalVisible)
    (h53 : TotalVisible ≤ 2 ^ 53) (hov : InInt64 (pageNumber * pageSize)) :
    ∃ m, ∃ z : ℤ,
      GeneratePagination L pageNumber pageSize TotalVisible CurrentParam Items = some m ∧
      m.TotalPages = .fin (z : ℚ) ∧ (m.Last = true ↔ z ≤ pageNumber) := by
  obtain ⟨z, hz, _, hzex⟩ := totalPagesOf_int pageSize TotalVisible hps htv
  refine ⟨_, z, GeneratePagination_of_len L pageNumber pageSize TotalVisible CurrentParam Items n
    hlen, hz, ?_⟩
  show decide (wrapInt64 (pageNumber * pageSize) ≥ TotalVisible) = true ↔ z ≤ pageNumber
  rw [wrapInt64_of_inInt64 _ hov, decide_eq_true_iff, hzex h53, Int.ceil_le]
  have hpsq : (0 : ℚ) < pageSize := by exact_mod_cast hps
  rw [div_le_iff₀ hpsq]
  constructor
  · intro h
    exact_mod_cast h
  · intro h
    exact_mod_cast h

/-- Page ten of ninety-five records in pages of ten is the last one, an
instance of `C20_last_iff_page_reaches_total` on the sample library. -/
theorem C20_last_iff_page_reaches_total_witness :
    ∃ m, ∃ z : ℤ, GeneratePagination sampleLib 10 10 95 "" ⟨some 5⟩ = some m ∧
      m.TotalPages = .fin (z : ℚ) ∧ (m.Last = true ↔ z ≤ 10) :=
  C20_last_iff_page_reaches_total sampleLib 10 10 95 "" ⟨some 5⟩ 5 rfl (by norm_num)
    (by norm_num) (by norm_num) ⟨by norm_num, by norm_num⟩

/-- C20 (as stated) fails: with `2 ^ 53 + 1` records in pages of `2 ^ 53`,
page one reaches the returned page count, which is one, and is not flagged as
the last one; the product of page number and page size is far from
overflowing. -/
theorem C20_counterexample :
    InInt64 (1 * 2 ^ 53) ∧
    ∃ m, GeneratePagination sampleLib 1 (2 ^ 53) (2 ^ 53 + 1) "" ⟨some 0⟩ = some m ∧
      m.TotalPages = .fin ((1 : ℤ) : ℚ) ∧ m.Page = 1 ∧ m.Last = false := by
  refine ⟨⟨by norm_num, by norm_num⟩, _,
    GeneratePagination_of_len sampleLib 1 (2 ^ 53) (2 ^ 53 + 1) "" ⟨some 0⟩ 0 rfl,
    totalPagesOf_two_pow_53_size, rfl, ?_⟩
  show decide (wrapInt64 (1 * 2 ^ 53) ≥ 2 ^ 53 + 1) = false
  rw [wrapInt64_of_inInt64 _ ⟨by norm_num, by norm_num⟩]
  decide

/-! ## Search and sort -/

/-- The search loop over a list of column names appends one fragment and one
parameter for each. -/
theorem searchLoop_strings (t : String) (cs : List String) :
    ∀ (qs : List String) (ws : List GoVal),
      searchLoop t (cs.map GoVal.str) qs ws =
        some (qs ++ cs.map (fun c => c ++ " LIKE ?"),
          ws ++ cs.map (fun _ => GoVal.str ("%" ++ t ++ "%"))) := by
  induction cs with
  | nil => intro qs ws; simp [searchLoop]
  | cons c cs ih =>
    intro qs ws
    simp only [List.map_cons, searchLoop]
    rw [ih]
    simp

/-- C15: with a search term that is not empty and a column list of one or
more names, the search text is the fragments `c LIKE ?` of the names joined
by ` OR `, with one parameter `%term%` for each name; with an empty term, or
an empty column list, the search text is empty and no parameter is bound. -/
theorem C15_search_compiles (L : GoLib) (pageFilters pageSearch columnFilter pageSort : String)
    (fr : String × List GoVal) (hfilter : filterPart L pageFilters = some fr) :
    (∀ cs : List String, cs ≠ [] → pageSearch ≠ "" →
      L.Unmarshal columnFilter = some (.arr (cs.map GoVal.str)) →
      CreateCustomFilters L pageFilters pageSearch columnFilter pageSort = some {
        ResultFilters := ReplaceAll fr.1 "\"" ""
        whereFilters := fr.2
        ResultSearch := Join (cs.map (fun c => c ++ " LIKE ?")) " OR "
        whereSearch := List.replicate cs.length (.str ("%" ++ pageSearch ++ "%"))
        orderBy := sortPart L pageSort }) ∧
    (pageSearch = "" ∨ L.Unmarshal columnFilter = some (.arr []) →
      CreateCustomFilters L pageFilters pageSearch columnFilter pageSort = some {
        ResultFilters := ReplaceAll fr.1 "\"" ""
        whereFilters := fr.2
        ResultSearch := ""
        whereSearch := []
        orderBy := sortPart L pageSort }) := by
  constructor
  · intro cs hcs ht hdec
    have hlen : 0 < cs.length := List.length_pos.mpr hcs
    have hsearch : searchPart L pageSearch columnFilter =
        some (Join (cs.map (fun c => c ++ " LIKE ?")) " OR ",
          List.replicate cs.length (.str ("%" ++ pageSearch ++ "%"))) := by
      have hrep : cs.map (fun _ => GoVal.str ("%" ++ pageSearch ++ "%")) =
          List.replicate cs.length (.str ("%" ++ pageSearch ++ "%")) := by
        simp [List.map_const']
      simp [searchPart, StringToJson, hdec, CountLengthIface, hlen, Ne.symm ht,
        searchLoop_strings, hrep]
    simp [CreateCustomFilters, hsearch, hfilter]
  · intro h
    have hsearch : searchPart L pageSearch columnFilter = some ("", []) := by
      rcases h with h | h
      · subst h
        unfold searchPart
        split
        · rfl
        · split_ifs <;> simp_all
      · simp [searchPart, StringToJson, h, CountLengthIface]
    simp [CreateCustomFilters, hsearch, hfilter]

/-- The documented term and column list, an instance of `C15_search_compiles`
on the sample library. -/
theorem C15_search_compiles_witness :
    CreateCustomFilters sampleLib "" "value" "[\"trx_id\",\"id\"]" "" = some {
      ResultFilters := ""
      whereFilters := []
      ResultSearch := "trx_id LIKE ? OR id LIKE ?"
      whereSearch := [.str "%value%", .str "%value%"]
      orderBy := "id desc" } :=
  (C15_search_compiles sampleLib "" "value" "[\"trx_id\",\"id\"]" "" ("", []) rfl).1
    ["trx_id", "id"] (by decide) (by decide) rfl

/-- When its search part and its filter part return, `CreateCustomFilters`
returns their results, the predicate text without its double quotes, and the
order-by clause. -/
theorem CreateCustomFilters_of_parts (L : GoLib)
    (pageFilters pageSearch columnFilter pageSort : String) (sr fr : String × List GoVal)
    (hsearch : searchPart L pageSearch columnFilter = some sr)
    (hfilter : filterPart L pageFilters = some fr) :
    CreateCustomFilters L pageFilters pageSearch columnFilter pageSort = some {
      ResultFilters := ReplaceAll fr.1 "\"" ""
      whereFilters := fr.2
      ResultSearch := sr.1
      whereSearch := sr.2
      orderBy := sortPart L pageSort } := by
  simp only [CreateCustomFilters, hsearch, hfilter]

/-- C16: the order-by clause is `id desc` for an empty sort token, the
normalised name after the minus sign followed by ` desc` for a token that
starts with a minus sign, and the normalised token followed by ` asc` for
any other token. -/
theorem C16_order_by (L : GoLib) (pageFilters pageSearch columnFilter pageSort : String)
    (sr fr : String × List GoVal)
    (hsearch : searchPart L pageSearch columnFilter = some sr)
    (hfilter : filterPart L pageFilters = some fr) :
    ∃ r, CreateCustomFilters L pageFilters pageSearch columnFilter pageSort = some r ∧
      (pageSort = "" → r.orderBy = "id desc") ∧
      (∀ c : String, pageSort = "-" ++ c → r.orderBy = NormalizeFieldName L c ++ " desc") ∧
      (pageSort ≠ "" → (∀ c : String, pageSort ≠ "-" ++ c) →
        r.orderBy = NormalizeFieldName L pageSort ++ " asc") := by
  refine ⟨_, CreateCustomFilters_of_parts L pageFilters pageSearch columnFilter pageSort sr fr
    hsearch hfilter, ?_, ?_, ?_⟩
  · intro h
    subst h
    rfl
  · intro c h
    subst h
    have hne : ¬ ("" = "-" ++ c) := by
      intro e
      have := congrArg String.length e
      have h1 : ("-" : String).length = 1 := rfl
      simp at this
      omega
    show sortPart L ("-" ++ c) = _
    have hd : ("-" ++ c).data = '-' :: c.data := by
      simp [String.data_append]
    have hsp : (" " : String) ++ "desc" = " desc" := by decide
    simp only [sortPart, hne, ne_eq, not_false_eq_true, if_true, hd]
    show NormalizeFieldName L c ++ " " ++ "desc" = _
    rw [String.append_assoc, hsp]
  · intro hne hc
    show sortPart L pageSort = _
    have hne2 : ¬ ("" = pageSort) := fun e => hne e.symm
    simp only [sortPart, hne2, ne_eq, not_false_eq_true, if_true]
    split
    · rename_i rest heq
      exfalso
      apply hc (String.mk rest)
      apply String.ext
      simp [String.data_append, heq]
    · have hsp : (" " : String) ++ "asc" = " asc" := by decide
      rw [String.append_assoc, hsp]

/-- A sort token with a minus sign, an instance of `C16_order_by` on the
sample library. -/
theorem C16_order_by_witness :
    (∃ r, CreateCustomFilters sampleLib "" "" "" "-name" = some r ∧
      r.orderBy = NormalizeFieldName sampleLib "name" ++ " desc") ∧
    NormalizeFieldName sampleLib "name" ++ " desc" = "name desc" :=
  ⟨(C16_order_by sampleLib "" "" "" "-name" ("", []) ("", []) rfl rfl).elim
    (fun r h => ⟨r, h.1, h.2.2.1 "name" rfl⟩), by decide⟩

/-- C18 (code at the failing input): with the page assignment after another
parameter the assignment is not removed: its name is cut out, its value stays
and an ampersand is put in front.  With the page assignment first it is
removed; standing alone it leaves an ampersand. -/
theorem C18_page_after_other_parameter :
    NormalizeParam "a=1&page=2" = "&a=1&2" ∧
    BeetweenString "a=1&page=2" "page=" "&" = "" ∧
    NormalizeParam "page=2&a=1" = "&a=1" ∧
    NormalizeParam "page=2" = "&" ∧
    NormalizeParam "a=1" = "&a=1" := by
  decide

/-! ## The kinds of the parsed filters -/

theorem tripleStep_Typ {n i : Nat} {a : GoVal} {f g : QueryFilter}
    (hstep : tripleStep n i a f = some g) (h : f.Typ ≠ "single") : g.Typ ≠ "single" := by
  unfold tripleStep at hstep
  split_ifs at hstep
  · cases a <;> simp at hstep
    subst hstep
    show "operator" ≠ "single"
    decide
  · cases a <;> simp at hstep
    subst hstep
    exact h
  · simp at hstep
    subst hstep
    exact h
  · cases a <;> simp at hstep
    subst hstep
    exact h
  · simp at hstep
    subst hstep
    exact h
  · simp at hstep
    subst hstep
    exact h

theorem tripleLoop_Typ (n : Nat) (l : List GoVal) :
    ∀ (i : Nat) (f g : QueryFilter), tripleLoop n i l f = some g → f.Typ ≠ "single" →
      g.Typ ≠ "single" := by
  induction l with
  | nil =>
    intro i f g hloop h
    simp [tripleLoop] at hloop
    subst hloop
    exact h
  | cons a rest ih =>
    intro i f g hloop h
    simp only [tripleLoop] at hloop
    cases hstep : tripleStep n i a f with
    | none => simp [hstep] at hloop
    | some f2 =>
      simp only [hstep] at hloop
      exact ih (i + 1) f2 g hloop (tripleStep_Typ hstep h)

theorem singleStep_Typ (L : GoLib) (len x : Nat) (v : GoVal) (single : QueryFilter) :
    (singleStep L len x v single).Typ = single.Typ := by
  unfold singleStep
  split_ifs
  · cases v <;> rfl
  · rfl
  · cases v <;> rfl
  · rfl
  · rfl

theorem outerStep_kinds {L : GoLib} {len x : Nat} {v : GoVal} {st st2 : ParseState}
    (hstep : outerStep L len x v st = some st2)
    (h : (∀ f ∈ st.filters, f.Typ ≠ "single") ∧ st.singleFilter.Typ = "single") :
    (∀ f ∈ st2.filters, f.Typ ≠ "single") ∧ st2.singleFilter.Typ = "single" := by
  unfold outerStep at hstep
  split at hstep
  · rename_i item _
    cases hloop : tripleLoop item.length 0 item { Item := {}, Typ := "multiple" } with
    | none => simp [hloop] at hstep
    | some filter =>
      simp only [hloop, Option.some.injEq] at hstep
      subst hstep
      have ht : filter.Typ ≠ "single" := tripleLoop_Typ _ _ 0 _ _ hloop (by decide)
      refine ⟨?_, h.2⟩
      intro f hf
      rcases List.mem_append.mp hf with hf | hf
      · exact h.1 f hf
      · rw [List.mem_singleton] at hf
        subst hf
        exact ht
  · simp only [Option.some.injEq] at hstep
    subst hstep
    exact ⟨h.1, (singleStep_Typ L len x _ _).trans h.2⟩

theorem outerLoop_kinds (L : GoLib) (len : Nat) (l : List GoVal) :
    ∀ (x : Nat) (st st2 : ParseState), outerLoop L len x l st = some st2 →
      ((∀ f ∈ st.filters, f.Typ ≠ "single") ∧ st.singleFilter.Typ = "single") →
      (∀ f ∈ st2.filters, f.Typ ≠ "single") ∧ st2.singleFilter.Typ = "single" := by
  induction l with
  | nil =>
    intro x st st2 hloop h
    simp [outerLoop] at hloop
    subst hloop
    exact h
  | cons v rest ih =>
    intro x st st2 hloop h
    simp only [outerLoop] at hloop
    cases hstep : outerStep L len x v st with
    | none => simp [hstep] at hloop
    | some st1 =>
      simp only [hstep] at hloop
      exact ih (x + 1) st1 st2 hloop (outerStep_kinds hstep h)

/-- The list `CreateFilter` returns is a list without a filter of kind single,
alone or followed by one filter of kind single. -/
theorem CreateFilter_shape (L : GoLib) (s : String) (fs : List QueryFilter)
    (h : CreateFilter L s = some fs) :
    ∃ ms, (∀ f ∈ ms, f.Typ ≠ "single") ∧
      (fs = ms ∨ ∃ sf, sf.Typ = "single" ∧ fs = ms ++ [sf]) := by
  unfold CreateFilter at h
  cases hdec : L.Unmarshal s with
  | none =>
    simp [hdec] at h
    subst h
    exact ⟨[], by simp, Or.inl rfl⟩
  | some output =>
    simp only [hdec] at h
    unfold filtersOfValue at h
    split at h
    · rename_i iface
      cases hloop : outerLoop L iface.length 0 iface
          { filters := [], hasSingle := false, singleFilter := { Item := {}, Typ := "single" } } with
      | none => simp [hloop] at h
      | some st =>
        simp only [hloop, Option.some.injEq] at h
        have hinv := outerLoop_kinds L _ iface 0 _ st hloop ⟨by simp, rfl⟩
        subst h
        refine ⟨st.filters, hinv.1, ?_⟩
        split_ifs
        · exact Or.inr ⟨st.singleFilter, hinv.2, rfl⟩
        · exact Or.inl rfl
    · simp at h
      subst h
      exact ⟨[], by simp, Or.inl rfl⟩

/-- C19: a list returned by `CreateFilter` holds at most one filter of kind
single, and a filter of kind single in it is its last element. -/
theorem C19_single_once_and_last (L : GoLib) (s : String) (fs : List QueryFilter)
    (h : CreateFilter L s = some fs) :
    fs.countP (fun f => f.Typ = "single") ≤ 1 ∧
    ∀ f ∈ fs, f.Typ = "single" → fs.getLast? = some f := by
  obtain ⟨ms, hms, hfs⟩ := CreateFilter_shape L s fs h
  have hcount : ms.countP (fun f => f.Typ = "single") = 0 := by
    rw [List.countP_eq_zero]
    intro f hf
    simpa using hms f hf
  rcases hfs with rfl | ⟨sf, hsf, rfl⟩
  · refine ⟨by omega, ?_⟩
    intro f hf hty
    exact absurd hty (hms f hf)
  · refine ⟨?_, ?_⟩
    · rw [List.countP_append, hcount]
      simp [List.countP_cons, hsf]
    · intro f hf hty
      rcases List.mem_append.mp hf with hf | hf
      · exact absurd hty (hms f hf)
      · rw [List.mem_singleton] at hf
        subst hf
        simp

/-- The documented flat pair: one filter, of kind single, which is the last
element; an instance of `C19_single_once_and_last` on the sample library. -/
theorem C19_single_once_and_last_witness :
    (∃ item, CreateFilter sampleLib "[\"age\", 30]" = some [{ Item := item, Typ := "single" }]) ∧
    ([({ Item := ⟨"\"age\"", "=", .float64 (.fin 30), "float64"⟩, Typ := "single" } :
        QueryFilter)].countP (fun f => f.Typ = "single") ≤ 1 ∧
      ∀ f ∈ [({ Item := ⟨"\"age\"", "=", .float64 (.fin 30), "float64"⟩, Typ := "single" } :
        QueryFilter)], f.Typ = "single" →
        [({ Item := ⟨"\"age\"", "=", .float64 (.fin 30), "float64"⟩, Typ := "single" } :
        QueryFilter)].getLast? = some f) :=
  ⟨⟨_, rfl⟩, C19_single_once_and_last sampleLib "[\"age\", 30]" _ rfl⟩

/-! ## Lists of triples and connectives -/

/-- The lists `CreateWhereCause` is handed are extended, never read: its
result is its result from empty lists, placed after them. -/
theorem CreateWhereCause_frame (L : GoLib) (f : QueryFilter) (qf : List String)
    (wp : List GoVal) :
    CreateWhereCause L f qf wp =
      (CreateWhereCause L f [] []).map (fun r => (qf ++ r.1, wp ++ r.2)) := by
  unfold CreateWhereCause
  split_ifs
  all_goals (repeat' split)
  all_goals simp_all

theorem CreateWhereCause_isSome_of_Tagged (L : GoLib) (f : QueryFilter) (ht : f.Item.Tagged) :
    ∃ r, CreateWhereCause L f [] [] = some r := by
  obtain ⟨t, hlike⟩ := likeValue_tagged L f.Item ht
  simp only [CreateWhereCause, hlike]
  split_ifs
  all_goals (repeat' split)
  all_goals exact ⟨_, rfl⟩

/-- On an item that carries its tag `CreateWhereCause` returns, appending the
compiled fragments and parameters of the item. -/
theorem CreateWhereCause_compiled (L : GoLib) (f : QueryFilter) (qf : List String)
    (wp : List GoVal) (ht : f.Item.Tagged) :
    CreateWhereCause L f qf wp = some (qf ++ (compiled L f).1, wp ++ (compiled L f).2) := by
  obtain ⟨r, hr⟩ := CreateWhereCause_isSome_of_Tagged L f ht
  rw [CreateWhereCause_frame, compiled, hr]
  rfl

theorem Entry.filter_Tagged (L : GoLib) (e : Entry) : (Entry.filter L e).Item.Tagged := by
  cases e with
  | triple f op v => cases v <;> rfl
  | connective c => rfl

/-- The turn of the outer loop of `CreateFilter` on the JSON of an entry, in
multiple-triple mode, appends the filter of the entry. -/
theorem outerStep_entry (L : GoLib) (len x : Nat) (e : Entry) (st : ParseState)
    (h : st.hasSingle = false) :
    outerStep L len x e.toJson st =
      some { st with filters := st.filters ++ [Entry.filter L e] } := by
  cases e with
  | triple f op v =>
    simp only [Entry.toJson, outerStep, h, tripleLoop, tripleStep, Entry.filter]
    simp [SetFilterValue_Field, SetFilterValue_Operator]
    cases v <;> simp [SetFilterValue]
  | connective c =>
    simp [Entry.toJson, outerStep, h, tripleLoop, tripleStep, Entry.filter]

theorem outerLoop_entries (L : GoLib) (len : Nat) (es : List Entry) :
    ∀ (x : Nat) (st : ParseState), st.hasSingle = false →
      outerLoop L len x (es.map Entry.toJson) st =
        some { st with filters := st.filters ++ es.map (Entry.filter L) } := by
  induction es with
  | nil => intro x st _; simp [outerLoop]
  | cons e es ih =>
    intro x st h
    simp only [List.map_cons, outerLoop, outerStep_entry L len x e st h]
    rw [ih (x + 1) { st with filters := st.filters ++ [Entry.filter L e] } h]
    simp

/-- A list of triples and connectives is parsed entry by entry. -/
theorem filtersOfValue_entries (L : GoLib) (es : List Entry) :
    filtersOfValue L (.arr (es.map Entry.toJson)) = some (es.map (Entry.filter L)) := by
  have := outerLoop_entries L es.length es 0
    { filters := [], hasSingle := false, singleFilter := { Item := {}, Typ := "single" } } rfl
  simp [filtersOfValue, this]

/-- The loop of `CreateCustomFilters` over the filters of a list of entries
appends what the specification describes. -/
theorem filterLoop_entries (L : GoLib) (es : List Entry) :
    ∀ (prev : Option QueryFilter) (qf : List String) (wf : List GoVal),
      filterLoop L prev (es.map (Entry.filter L)) qf wf =
        some (qf ++ emitted L (afterTripleOf prev) es, wf ++ bound L es) := by
  induction es with
  | nil => intro prev qf wf; simp [filterLoop, emitted, bound]
  | cons e es ih =>
    intro prev qf wf
    cases e with
    | connective c =>
      simp only [List.map_cons, filterLoop, Entry.filter, if_true]
      rw [ih]
      simp [emitted, bound, afterTripleOf]
    | triple f op v =>
      have ht := Entry.filter_Tagged L (.triple f op v)
      have hty : (Entry.filter L (.triple f op v)).Typ = "multiple" := rfl
      simp only [List.map_cons, filterLoop, hty]
      rw [if_pos trivial]
      simp only [CreateWhereCause_compiled L _ _ _ ht]
      cases prev with
      | none => simp [emitted, bound, afterTripleOf, hty, ih]
      | some p =>
        by_cases hp : p.Typ = "operator"
        · simp [emitted, bound, afterTripleOf, hty, hp, ih]
        · simp [emitted, bound, afterTripleOf, hty, hp, ih]

/-- C17: a filter expression that is a list of triples and connectives is
compiled entry by entry in input order, a connective as its upper-cased text
and a triple as its fragment, with an `OR` element before a triple exactly
when the entry before it is a triple as well; the elements are joined by a
space and the double quotes removed, and the parameters of the triples are
bound in input order. -/
theorem C17_implicit_or_between_triples (L : GoLib) (s pageSearch columnFilter pageSort : String)
    (es : List Entry) (sr : String × List GoVal)
    (hs : s ≠ "")
    (hdec : L.Unmarshal s = some (.arr (es.map Entry.toJson)))
    (hsearch : searchPart L pageSearch columnFilter = some sr) :
    CreateCustomFilters L s pageSearch columnFilter pageSort = some {
      ResultFilters := ReplaceAll (Join (emitted L false es) " ") "\"" ""
      whereFilters := bound L es
      ResultSearch := sr.1
      whereSearch := sr.2
      orderBy := sortPart L pageSort } := by
  have hcf : CreateFilter L s = some (es.map (Entry.filter L)) := by
    simp only [CreateFilter, hdec]
    exact filtersOfValue_entries L es
  have hloop := filterLoop_entries L es none [] []
  simp only [afterTripleOf, List.nil_append] at hloop
  have hs2 : ¬ ("" = s) := fun e => hs e.symm
  have hjoin : (if (emitted L false es).length > 0 then Join (emitted L false es) " " else "") =
      Join (emitted L false es) " " := by
    split_ifs with h
    · rfl
    · have : emitted L false es = [] := by
        cases hem : emitted L false es with
        | nil => rfl
        | cons a b => simp [hem] at h
      rw [this]
      rfl
  have hfilter : filterPart L s = some (Join (emitted L false es) " ", bound L es) := by
    simp only [filterPart, hs2, ne_eq, not_false_eq_true, if_true, hcf]
    cases hes : es with
    | nil =>
      subst hes
      simp [emitted, bound, Join]
    | cons e rest =>
      cases hrest : rest with
      | nil =>
        subst hes hrest
        have hty : ¬ ((Entry.filter L e).Typ = "single") := by
          cases e <;> simp [Entry.filter]
        simp only [List.map_cons, List.map_nil, if_neg hty]
        simp only [List.map_cons, List.map_nil] at hloop
        rw [hloop]
        simp only [hjoin]
      | cons e2 rest2 =>
        subst hes hrest
        simp only [List.map_cons]
        simp only [List.map_cons] at hloop
        rw [hloop]
        simp only [hjoin]
  exact CreateCustomFilters_of_parts L s pageSearch columnFilter pageSort sr _ hsearch hfilter

/-- Two triples without a connective, and two triples around one: instances
of `C17_implicit_or_between_triples` on the sample library. -/
theorem C17_implicit_or_between_triples_witness :
    CreateCustomFilters sampleLib "[[\"a\",\"=\",\"1\"],[\"b\",\"=\",\"2\"]]" "" "" "" = some {
      ResultFilters := "a = ?  OR  b = ?"
      whereFilters := [.str "1", .str "2"]
      ResultSearch := ""
      whereSearch := []
      orderBy := "id desc" } ∧
    CreateCustomFilters sampleLib
        "[[\"a\",\"=\",\"1\"],[\"and\"],[\"b\",\"=\",\"2\"]]" "" "" "" = some {
      ResultFilters := "a = ? AND b = ?"
      whereFilters := [.str "1", .str "2"]
      ResultSearch := ""
      whereSearch := []
      orderBy := "id desc" } :=
  ⟨C17_implicit_or_between_triples sampleLib "[[\"a\",\"=\",\"1\"],[\"b\",\"=\",\"2\"]]"
      "" "" "" [.triple "a" "=" (.str "1"), .triple "b" "=" (.str "2")] ("", [])
      (by decide) rfl rfl,
    C17_implicit_or_between_triples sampleLib
      "[[\"a\",\"=\",\"1\"],[\"and\"],[\"b\",\"=\",\"2\"]]"
      "" "" "" [.triple "a" "=" (.str "1"), .connective "and", .triple "b" "=" (.str "2")]
      ("", []) (by decide) rfl rfl⟩

end Filters
